import Mathlib

/-!
# TSIP framer and record decoders (`TsipParser.cpp`, `TsipParser.h`)

A shallow embedding of `CTsipParser`: the byte-stream framer `ReceivePkt`, the dispatcher
`ParsePkt` / `Parse0x8F`, and the record decoders `Parse0x8F20`, `Parse0x8FAB`, `Parse0x8FAC`
with the byte readers `GetShort`, `GetUShort`, `GetLong`, `GetULong`, `GetSingle`, `GetDouble`.

Conventions of the embedding.
* A byte (`unsigned char`) is a `Nat`; a byte array is a `List Nat`.
* The locals of `ReceivePkt` are carried in `RxLocals`.  Every write into the packet buffer has
  the form `ucPkt[nPktLen++] = x`, and the buffer is only ever read below `nPktLen`, so the
  pair (`ucPkt`, `nPktLen`) is represented by the list of the bytes `ucPkt[0 .. nPktLen-1]`;
  `nPktLen` is the length of that list, and the index of a write is the length before it.
* `ReceivePkt` returns, in order, the packets it hands to `ParsePkt`.
* A decoder returns `none` when it returns before decoding or printing anything, and
  `some record` with the values of its locals otherwise.
-/

namespace Tsip

/-! ## Constants (`TsipParser.h`) -/

/-- Parser state `MSG_IN_COMPLETE`: looking for the start of a packet. -/
def MSG_IN_COMPLETE : Nat := 0

/-- Parser state `TSIP_DLE`: the previous byte was a DLE. -/
def TSIP_DLE : Nat := 1

/-- Parser state `TSIP_IN_PARTIAL`: the previous byte was packet data. -/
def TSIP_IN_PARTIAL : Nat := 2

/-- TSIP packet start/end header byte. -/
def DLE : Nat := 0x10

/-- TSIP data packet tail byte. -/
def ETX : Nat := 0x03

/-- Size of the packet buffer `ucPkt`. -/
def MAX_TSIP_PKT_LEN : Nat := 300

/-! ## The framer `CTsipParser::ReceivePkt` -/

/-- The locals of `ReceivePkt` that live across loop iterations: `nParseState`, and the bytes
`ucPkt[0 .. nPktLen-1]` of the packet buffer. -/
structure RxLocals where
  nParseState : Nat
  ucPkt : List Nat
deriving DecidableEq, Repr

/-- The local `nPktLen`: the number of bytes accumulated in `ucPkt`. -/
def RxLocals.nPktLen (s : RxLocals) : Nat := s.ucPkt.length

/-- The locals at loop entry: `nParseState = MSG_IN_COMPLETE`.  `nPktLen` and `ucPkt` are not
initialised by the source; in state `MSG_IN_COMPLETE` they are only compared with
`MAX_TSIP_PKT_LEN` and then overwritten, and are taken as empty here. -/
def rxInit : RxLocals := ⟨MSG_IN_COMPLETE, []⟩

/-- The overflow check that closes each loop iteration:
`if (nPktLen >= MAX_TSIP_PKT_LEN) { nParseState = MSG_IN_COMPLETE; nPktLen = 0; }`. -/
def overflowCheck (s : RxLocals) : RxLocals :=
  if MAX_TSIP_PKT_LEN ≤ s.nPktLen then ⟨MSG_IN_COMPLETE, []⟩ else s

/-- One iteration of the `for` loop of `ReceivePkt` on the byte `ucByte`: the `switch` on
`nParseState` followed by the overflow check.  The second component is the packet handed to
`ParsePkt` in this iteration, if any.  In the emitting branch the source resets `nPktLen` and
clears `ucPkt`, leaves `nParseState` as it is, and `continue`s past the overflow check. -/
def rxByte (s : RxLocals) (ucByte : Nat) : RxLocals × Option (List Nat) :=
  if s.nParseState = MSG_IN_COMPLETE then
    if ucByte = DLE then
      (overflowCheck ⟨TSIP_DLE, [ucByte]⟩, none)
    else
      (overflowCheck s, none)
  else if s.nParseState = TSIP_DLE then
    if ucByte = ETX then
      if 1 < s.nPktLen then
        (⟨s.nParseState, []⟩, some (s.ucPkt ++ [DLE, ETX]))
      else
        (overflowCheck ⟨MSG_IN_COMPLETE, s.ucPkt⟩, none)
    else
      (overflowCheck ⟨TSIP_IN_PARTIAL, s.ucPkt ++ [ucByte]⟩, none)
  else if s.nParseState = TSIP_IN_PARTIAL then
    if ucByte = DLE then
      (overflowCheck ⟨TSIP_DLE, s.ucPkt⟩, none)
    else
      (overflowCheck ⟨TSIP_IN_PARTIAL, s.ucPkt ++ [ucByte]⟩, none)
  else
    (overflowCheck ⟨MSG_IN_COMPLETE, s.ucPkt⟩, none)

/-- The `for` loop of `ReceivePkt` from the locals `s` over the bytes still to be read: the
locals at loop exit and the packets handed to `ParsePkt`, in order. -/
def rxLoop (s : RxLocals) : List Nat → RxLocals × List (List Nat)
  | [] => (s, [])
  | ucByte :: rest =>
    ((rxLoop (rxByte s ucByte).1 rest).1,
      (rxByte s ucByte).2.toList ++ (rxLoop (rxByte s ucByte).1 rest).2)

/-- Embedding of `CTsipParser::ReceivePkt (raw_data, raw_pkt_len)` with `raw_pkt_len = raw_data.length`:
the packets handed to `ParsePkt`, in order. -/
def ReceivePkt (raw_data : List Nat) : List (List Nat) :=
  (rxLoop rxInit raw_data).2

/-- The sender's byte stuffing, as the wire format describes it: every payload byte equal to
`0x10` is transmitted twice. -/
def stuff : List Nat → List Nat
  | [] => []
  | b :: bs => if b = DLE then DLE :: DLE :: stuff bs else b :: stuff bs

/-- The wire form of a payload: opening `0x10`, the stuffed payload, closing `0x10 0x03`. -/
def wireFrame (p : List Nat) : List Nat :=
  [DLE] ++ stuff p ++ [DLE, ETX]

/-- The framed packet of a payload: `0x10`, the payload, `0x10 0x03`. -/
def framedPkt (p : List Nat) : List Nat :=
  [DLE] ++ p ++ [DLE, ETX]

/-- The bytes of a packet between its first byte and its last two bytes: for a framed packet,
what lies between the leading `0x10` and the trailing `0x10 0x03`. -/
def payloadBytes (pkt : List Nat) : List Nat :=
  (pkt.drop 1).take (pkt.length - 3)

/-! ## Byte readers (`GetShort`, `GetUShort`, `GetLong`, `GetULong`, `GetSingle`, `GetDouble`)

A pointer `&ucData[k]` into a byte array is the array with its first `k` bytes dropped.  The
readers copy the bytes in reverse order into a local array and reinterpret it as the target
type; the host is taken to be little-endian and `S16`/`U16`, `S32`/`U32` to be 16 and 32 bits
wide, as the typedef comments of `TsipParser.h` state. -/

/-- The byte `ucData[i]`; `0` when `i` lies beyond the bytes carried by the list. -/
def byteAt (ucData : List Nat) (i : Nat) : Nat := ucData.getD i 0

/-- Reinterpretation of a 16-bit pattern as `S16` (two's complement). -/
def toS16 (v : Nat) : Int :=
  if 32768 ≤ v % 65536 then ((v % 65536 : Nat) : Int) - 65536 else ((v % 65536 : Nat) : Int)

/-- Reinterpretation of a 32-bit pattern as `S32` (two's complement). -/
def toS32 (v : Nat) : Int :=
  if 2147483648 ≤ v % 4294967296 then ((v % 4294967296 : Nat) : Int) - 4294967296
  else ((v % 4294967296 : Nat) : Int)

/-- Embedding of `CTsipParser::GetUShort`: `ucBuf[0] = pucBuf[1]; ucBuf[1] = pucBuf[0]`, read as `U16`. -/
def GetUShort (pucBuf : List Nat) : Nat :=
  byteAt pucBuf 1 + 256 * byteAt pucBuf 0

/-- Embedding of `CTsipParser::GetShort`: the same two bytes, read as `S16`. -/
def GetShort (pucBuf : List Nat) : Int :=
  toS16 (byteAt pucBuf 1 + 256 * byteAt pucBuf 0)

/-- Embedding of `CTsipParser::GetULong`: `ucBuf[0..3] = pucBuf[3], pucBuf[2], pucBuf[1], pucBuf[0]`, read
as `U32`. -/
def GetULong (pucBuf : List Nat) : Nat :=
  byteAt pucBuf 3 + 256 * byteAt pucBuf 2 + 65536 * byteAt pucBuf 1 + 16777216 * byteAt pucBuf 0

/-- Embedding of `CTsipParser::GetLong`: the same four bytes, read as `S32`. -/
def GetLong (pucBuf : List Nat) : Int :=
  toS32 (byteAt pucBuf 3 + 256 * byteAt pucBuf 2 + 65536 * byteAt pucBuf 1
    + 16777216 * byteAt pucBuf 0)

/-- Embedding of `CTsipParser::GetSingle`: the same four bytes, read as `FLT`.  The value is represented by
its IEEE-754 bit pattern. -/
def GetSingle (pucBuf : List Nat) : Nat :=
  byteAt pucBuf 3 + 256 * byteAt pucBuf 2 + 65536 * byteAt pucBuf 1 + 16777216 * byteAt pucBuf 0

/-- Embedding of `CTsipParser::GetDouble`: `ucBuf[0..7] = pucBuf[7], ..., pucBuf[0]`, read as `DBL`.  The
value is represented by its IEEE-754 bit pattern. -/
def GetDouble (pucBuf : List Nat) : Nat :=
  byteAt pucBuf 7 + 256 * byteAt pucBuf 6 + 256 ^ 2 * byteAt pucBuf 5 + 256 ^ 3 * byteAt pucBuf 4
    + 256 ^ 4 * byteAt pucBuf 3 + 256 ^ 5 * byteAt pucBuf 2 + 256 ^ 6 * byteAt pucBuf 1
    + 256 ^ 7 * byteAt pucBuf 0

/-! ## Record decoders

The decoders print what they decode; the embedding returns the decoded locals instead.
Arithmetic in `DBL` is carried out exactly, in `ℚ`: rounding is not represented. -/

/-- The constant `GPS_PI`. -/
def GPS_PI : ℚ := 3.1415926535898

/-- The constant `MAX_LONG`, `2**31`. -/
def MAX_LONG : ℚ := 2147483648

/-- The locals of `Parse0x8F20` after the extraction of the values from the data string. -/
structure Fix8F20 where
  ucMaxSVs : Nat
  ucSubpacketID : Nat
  dblVelScale : ℚ
  dblEnuVel : List ℚ
  fltTimeOfFix : ℚ
  dblLat : ℚ
  dblLon : ℚ
  dblAlt : ℚ
  cDatumIdx : Nat
  ucInfo : Nat
  ucNumSVs : Nat
  sWeekNum : Int
  ucSvPrn : List Nat
  ucSvIODE : List Int
deriving DecidableEq, Repr

/-- The satellite loop of `Parse0x8F20`, slot `i`:
`ucSvPrn[i] = (U8)(ucData[32+2*i] & 0x3F)`. -/
def svPrn (ucData : List Nat) (i : Nat) : Nat :=
  (byteAt ucData (32 + 2 * i) &&& 0x3F) % 256

/-- The satellite loop of `Parse0x8F20`, slot `i`:
`ucSvIODE[i] = (U16)(ucData[33+2*i] + 4*((S16)ucPrn-(S16)ucSvPrn[i]))`, stored as `S16`. -/
def svIODE (ucData : List Nat) (i : Nat) : Int :=
  toS16 ((((byteAt ucData (33 + 2 * i) : Int)
    + 4 * ((byteAt ucData (32 + 2 * i) : Int) - (svPrn ucData i : Int))) % 65536).toNat)

/-- The values extracted by `Parse0x8F20` once `ucMaxSVs` is known.  `S8` is
`unsigned char` in `TsipParser.h`, so `cDatumIdx--` wraps modulo 256.  `ucSvPrn` and `ucSvIODE`
hold the `ucMaxSVs` entries written by the satellite loop. -/
def extract0x8F20 (ucData : List Nat) (ucMaxSVs : Nat) : Fix8F20 :=
  let dblVelScale : ℚ := if byteAt ucData 24 &&& 1 ≠ 0 then 0.020 else 0.005
  let dblLon : ℚ := (GetULong (ucData.drop 16) : ℚ) * (GPS_PI / MAX_LONG)
  { ucMaxSVs := ucMaxSVs
    ucSubpacketID := byteAt ucData 0
    dblVelScale := dblVelScale
    dblEnuVel := [(GetShort (ucData.drop 2) : ℚ) * dblVelScale,
                  (GetShort (ucData.drop 4) : ℚ) * dblVelScale,
                  (GetShort (ucData.drop 6) : ℚ) * dblVelScale]
    fltTimeOfFix := (GetULong (ucData.drop 8) : ℚ) * 0.001
    dblLat := (GetLong (ucData.drop 12) : ℚ) * (GPS_PI / MAX_LONG)
    dblLon := if dblLon > GPS_PI then dblLon - 2.0 * GPS_PI else dblLon
    dblAlt := (GetLong (ucData.drop 20) : ℚ) * 0.001
    cDatumIdx := (byteAt ucData 26 + 255) % 256
    ucInfo := byteAt ucData 27
    ucNumSVs := byteAt ucData 28
    sWeekNum := GetShort (ucData.drop 30)
    ucSvPrn := (List.range ucMaxSVs).map (svPrn ucData)
    ucSvIODE := (List.range ucMaxSVs).map (svIODE ucData) }

/-- Embedding of `CTsipParser::Parse0x8F20`: the length check, then the extraction. -/
def Parse0x8F20 (ucData : List Nat) (nLen : Int) : Option Fix8F20 :=
  if nLen = 56 then some (extract0x8F20 ucData 8)
  else if nLen = 64 then some (extract0x8F20 ucData 12)
  else none

/-- The locals of `Parse0x8FAB` after the extraction of the values from the data string. -/
structure Utc8FAB where
  ulTimeOfWeek : Nat
  usWeekNumber : Nat
  sUtcOffset : Int
  ucTimingFlag : Nat
  ucSecond : Nat
  ucMinute : Nat
  ucHour : Nat
  ucDay : Nat
  ucMonth : Nat
  usYear : Nat
deriving DecidableEq, Repr

/-- Embedding of `CTsipParser::Parse0x8FAB`: the length check, then the extraction. -/
def Parse0x8FAB (ucData : List Nat) (nLen : Int) : Option Utc8FAB :=
  if nLen ≠ 17 then none
  else some
    { ulTimeOfWeek := GetULong (ucData.drop 1)
      usWeekNumber := GetUShort (ucData.drop 5)
      sUtcOffset := GetShort (ucData.drop 7)
      ucTimingFlag := byteAt ucData 9
      ucSecond := byteAt ucData 10
      ucMinute := byteAt ucData 11
      ucHour := byteAt ucData 12
      ucDay := byteAt ucData 13
      ucMonth := byteAt ucData 14
      usYear := GetUShort (ucData.drop 15) }

/-- The locals of `Parse0x8FAC` after the extraction of the values from the data string; the
`FLT` and `DBL` locals are carried as bit patterns. -/
structure Disc8FAC where
  ucReceiverMode : Nat
  ucDiscipliningMode : Nat
  ucSelfSurveyProgress : Nat
  ulHoldoverDuration : Nat
  usCriticalAlarms : Nat
  usMinorAlarms : Nat
  ucGPSDecodingStatus : Nat
  ucDiscipliningActivity : Nat
  ucSpareStatus1 : Nat
  ucSpareStatus2 : Nat
  fltPPSQuality : Nat
  fltTenMHzQuality : Nat
  ulDACValue : Nat
  fltDACVoltage : Nat
  fltTemperature : Nat
  dblLatitude : Nat
  dblLongitude : Nat
  dblAltitude : Nat
deriving DecidableEq, Repr

/-- Embedding of `CTsipParser::Parse0x8FAC`: the length check, then the extraction. -/
def Parse0x8FAC (ucData : List Nat) (nLen : Int) : Option Disc8FAC :=
  if nLen ≠ 68 then none
  else some
    { ucReceiverMode := byteAt ucData 1
      ucDiscipliningMode := byteAt ucData 2
      ucSelfSurveyProgress := byteAt ucData 3
      ulHoldoverDuration := GetULong (ucData.drop 4)
      usCriticalAlarms := GetUShort (ucData.drop 8)
      usMinorAlarms := GetUShort (ucData.drop 10)
      ucGPSDecodingStatus := byteAt ucData 12
      ucDiscipliningActivity := byteAt ucData 13
      ucSpareStatus1 := byteAt ucData 14
      ucSpareStatus2 := byteAt ucData 15
      fltPPSQuality := GetSingle (ucData.drop 16)
      fltTenMHzQuality := GetSingle (ucData.drop 20)
      ulDACValue := GetULong (ucData.drop 24)
      fltDACVoltage := GetSingle (ucData.drop 28)
      fltTemperature := GetSingle (ucData.drop 32)
      dblLatitude := GetDouble (ucData.drop 36)
      dblLongitude := GetDouble (ucData.drop 44)
      dblAltitude := GetDouble (ucData.drop 52) }

/-! ## The dispatcher (`ParsePkt`, `Parse0x8F`) -/

/-- What a call of `ParsePkt` decodes: the record of the decoder that was invoked. -/
inductive Decoded where
  | fix8F20 (r : Fix8F20)
  | utc8FAB (r : Utc8FAB)
  | disc8FAC (r : Disc8FAC)
deriving DecidableEq, Repr

/-- Embedding of `CTsipParser::Parse0x8F`: the `switch` on the super-packet identifier `ucData[0]`. -/
def Parse0x8F (ucData : List Nat) (nLen : Int) : Option Decoded :=
  if byteAt ucData 0 = 0x20 then (Parse0x8F20 ucData nLen).map Decoded.fix8F20
  else if byteAt ucData 0 = 0xAB then (Parse0x8FAB ucData nLen).map Decoded.utc8FAB
  else if byteAt ucData 0 = 0xAC then (Parse0x8FAC ucData nLen).map Decoded.disc8FAC
  else none

/-- Embedding of `CTsipParser::ParsePkt`: the `switch` on the packet identifier `ucPkt[1]`; the only live
case, `0x8F`, calls `Parse0x8F (&ucPkt[2], nPktLen-4)`. -/
def ParsePkt (ucPkt : List Nat) (nPktLen : Int) : Option Decoded :=
  if byteAt ucPkt 1 = 0x8F then Parse0x8F (ucPkt.drop 2) (nPktLen - 4)
  else none

/-- The function `ReceivePkt` together with the calls of `ParsePkt` it makes: what each packet handed over
decodes to, in order. -/
def ReceivePktDecoded (raw_data : List Nat) : List (Option Decoded) :=
  (ReceivePkt raw_data).map (fun ucPkt => ParsePkt ucPkt ucPkt.length)

/-- A framed packet `10 8F AB ... 10 03` with a 17-byte data string (sub-identifier `0xAB`
followed by the bytes `1 .. 16` with `0x10` replaced by `0x11`), used to evaluate the dispatcher. -/
def samplePkt8FAB : List Nat :=
  [0x10, 0x8F, 0xAB, 1, 2, 3, 4, 5, 6, 7, 8, 9, 10, 11, 12, 13, 14, 15, 0x11, 0x10, 0x03]

/-! ## What `Parse0x8F20` and `Parse0x8FAC` print from the decoded values

Only the table look-ups and the datum text are represented, not the formatted lines. -/

/-- The table `gstrDayName` of `TsipParser.h`. -/
def gstrDayName : List String := ["Sun", "Mon", "Tue", "Wed", "Thu", "Fri", "Sat"]

/-- The conversion `(S16)x` of a `DBL`: truncation toward zero.  Values outside the range of
`S16` are not wrapped. -/
def truncS16 (x : ℚ) : Int := if 0 ≤ x then ⌊x⌋ else -⌊-x⌋

/-- The index `(S16)(fltTimeOfFix/86400.0)` with which `Parse0x8F20` reads `gstrDayName`. -/
def dayNameIndex (r : Fix8F20) : Int := truncS16 (r.fltTimeOfFix / 86400.0)

/-- The day name `gstrDayName[(S16)(fltTimeOfFix/86400.0)]` printed by `Parse0x8F20`; `none`
when the index lies outside the seven entries of the table. -/
def dayName (r : Fix8F20) : Option String :=
  if 0 ≤ dayNameIndex r then gstrDayName[(dayNameIndex r).toNat]? else none

/-- The three texts `Parse0x8F20` can put into `strDatum`: `"Datum%3d"` with the index,
`"Unknown "` and `"WGS-84"`. -/
inductive StrDatum where
  | datum (cDatumIdx : Nat)
  | unknown
  | wgs84
deriving DecidableEq, Repr

/-- The choice of `strDatum` in `Parse0x8F20`:
`if (cDatumIdx > 0) Datum else if (cDatumIdx) Unknown else WGS-84`. -/
def strDatum (cDatumIdx : Nat) : StrDatum :=
  if cDatumIdx > 0 then StrDatum.datum cDatumIdx
  else if cDatumIdx ≠ 0 then StrDatum.unknown
  else StrDatum.wgs84

/-- The table `strOprtngDim` of `Parse0x8FAC`. -/
def strOprtngDim : List String :=
  ["Automatic (2D/3D)", "Single Satellite (Time)", "unknown", "Horizontal (2D)",
   "Full Position (3D)", "DGPR Reference", "Clock Hold (2D)", "Overdetermined Clock"]

/-- The receiver-mode text `strOprtngDim[ucReceiverMode%7]` printed by `Parse0x8FAC`; `none`
when the index lies outside the table. -/
def oprtngDim (r : Disc8FAC) : Option String :=
  strOprtngDim[r.ucReceiverMode % 7]?

/-- A 56-byte data string for `Parse0x8F20` whose time-of-fix field (offsets 8 to 11) is
`FF FF FF FF`; every other byte after the sub-identifier is zero. -/
def samplePayload8F20 : List Nat :=
  [0x20] ++ List.replicate 7 0 ++ [0xFF, 0xFF, 0xFF, 0xFF] ++ List.replicate 44 0

/-- A 56-byte data string for `Parse0x8F20` with velocity fields `FF 38`, `00 64`, `80 00`,
scale byte `0x03`, longitude field `C0 00 00 00`, datum byte `0x01` and two satellite pairs. -/
def samplePayload8F20b : List Nat :=
  [0x20, 0, 0xFF, 0x38, 0x00, 0x64, 0x80, 0x00, 0, 0, 0x03, 0xE8, 0, 0, 0, 0,
   0xC0, 0, 0, 0, 0, 0, 0, 0, 0x03, 0, 0x01, 0, 2, 0, 0, 0,
   0xC5, 0x07, 0x3F, 0xFF] ++ List.replicate 20 0

/-- A 17-byte data string for `Parse0x8FAB`. -/
def samplePayload8FAB : List Nat :=
  [0xAB, 0x00, 0x01, 0x51, 0x80, 0x08, 0x34, 0xFF, 0xEE, 0x03, 59, 58, 23, 31, 12, 0x07, 0xE8]

/-- A 68-byte data string for `Parse0x8FAC` with receiver mode `7`. -/
def samplePayload8FAC : List Nat :=
  [0xAC, 7] ++ List.replicate 66 0

/-- The slot indexes read by each of the two listing loops of `Parse0x8F20`,
`for (i=0; i<ucNumSVs; i++)`. -/
def listedSlots (r : Fix8F20) : List Nat := List.range r.ucNumSVs

/-- What the first listing loop reads, `ucSvPrn[i]` for every listed slot; `none` for a slot
the satellite loop did not write. -/
def listedPrn (r : Fix8F20) : List (Option Nat) :=
  (listedSlots r).map (fun i => r.ucSvPrn[i]?)

/-- The rendering `ucSvIODE[i] & 0xFF` of an IODE in the second listing loop. -/
def iodeShown (ucSvIODE_i : Int) : Int := Int.land ucSvIODE_i 0xFF

/-- What the second listing loop prints, `ucSvIODE[i] & 0xFF` for every listed slot; `none`
for a slot the satellite loop did not write. -/
def listedIODE (r : Fix8F20) : List (Option Int) :=
  (listedSlots r).map (fun i => (r.ucSvIODE[i]?).map iodeShown)

/-- The eight digits `Parse0x8FAC` prints for an alarm field: bits 7, 6, 5, 4, 3, then
bit 7 again, then bits 1 and 0. -/
def alarmDigits (usAlarms : Nat) : List Nat :=
  [(usAlarms >>> 7) &&& 1, (usAlarms >>> 6) &&& 1, (usAlarms >>> 5) &&& 1,
   (usAlarms >>> 4) &&& 1, (usAlarms >>> 3) &&& 1, (usAlarms >>> 7) &&& 1,
   (usAlarms >>> 1) &&& 1, usAlarms &&& 1]

/-- A 56-byte data string for `Parse0x8F20` whose reported satellite count (offset 28) is
`0xFF`; every other byte after the sub-identifier is zero. -/
def samplePayload8F20c : List Nat :=
  [0x20] ++ List.replicate 27 0 ++ [0xFF] ++ List.replicate 27 0

/-- A 68-byte data string for `Parse0x8FAC` with critical alarms `00 81` and minor alarms
`00 42`. -/
def samplePayload8FACa : List Nat :=
  [0xAC, 0, 0, 0, 0, 0, 0, 0, 0x00, 0x81, 0x00, 0x42] ++ List.replicate 56 0

/-- A 68-byte data string for `Parse0x8FAC` with critical alarms `FF 85` and minor alarms
`80 46`: the alarm fields of `samplePayload8FACa` with bit 2 and bits 8 to 15 changed. -/
def samplePayload8FACb : List Nat :=
  [0xAC, 0, 0, 0, 0, 0, 0, 0, 0xFF, 0x85, 0x80, 0x46] ++ List.replicate 56 0

/-! ## Stepping lemmas for the framer -/

theorem rxLoop_nil (s : RxLocals) : rxLoop s [] = (s, []) := rfl

theorem rxLoop_cons (s : RxLocals) (b : Nat) (bs : List Nat) :
    rxLoop s (b :: bs) =
      ((rxLoop (rxByte s b).1 bs).1, (rxByte s b).2.toList ++ (rxLoop (rxByte s b).1 bs).2) := rfl

/-- Running the loop over a concatenation is running it over the first part and then, from
the locals reached, over the second. -/
theorem rxLoop_append (s : RxLocals) (xs ys : List Nat) :
    rxLoop s (xs ++ ys) =
      ((rxLoop (rxLoop s xs).1 ys).1, (rxLoop s xs).2 ++ (rxLoop (rxLoop s xs).1 ys).2) := by
  induction xs generalizing s with
  | nil => simp [rxLoop_nil]
  | cons b bs ih => simp [rxLoop_cons, ih, List.append_assoc]

theorem overflowCheck_of_lt (s : RxLocals) (h : s.ucPkt.length < 300) : overflowCheck s = s := by
  simp [overflowCheck, RxLocals.nPktLen, MAX_TSIP_PKT_LEN, Nat.not_le.mpr h]

theorem overflowCheck_of_ge (s : RxLocals) (h : 300 ≤ s.ucPkt.length) :
    overflowCheck s = ⟨MSG_IN_COMPLETE, []⟩ := by
  simp [overflowCheck, RxLocals.nPktLen, MAX_TSIP_PKT_LEN, h]

theorem rxByte_seek_dle (buf : List Nat) :
    rxByte ⟨MSG_IN_COMPLETE, buf⟩ DLE = (⟨TSIP_DLE, [DLE]⟩, none) := by
  simp [rxByte, overflowCheck, RxLocals.nPktLen, MAX_TSIP_PKT_LEN]

theorem rxByte_seek_other (buf : List Nat) (b : Nat) (hb : b ≠ DLE) :
    rxByte ⟨MSG_IN_COMPLETE, buf⟩ b = (overflowCheck ⟨MSG_IN_COMPLETE, buf⟩, none) := by
  simp [rxByte, hb]

theorem rxByte_dle_etx_emit (buf : List Nat) (h : 1 < buf.length) :
    rxByte ⟨TSIP_DLE, buf⟩ ETX = (⟨TSIP_DLE, []⟩, some (buf ++ [DLE, ETX])) := by
  simp [rxByte, RxLocals.nPktLen, h, TSIP_DLE, MSG_IN_COMPLETE]

theorem rxByte_dle_etx_empty (buf : List Nat) (h : buf.length ≤ 1) :
    rxByte ⟨TSIP_DLE, buf⟩ ETX = (⟨MSG_IN_COMPLETE, buf⟩, none) := by
  have h1 : ¬ 1 < buf.length := Nat.not_lt.mpr h
  have h2 : ¬ 300 ≤ buf.length := by omega
  simp [rxByte, RxLocals.nPktLen, h1, h2, overflowCheck, TSIP_DLE, MSG_IN_COMPLETE,
    MAX_TSIP_PKT_LEN]

theorem rxByte_dle_other (buf : List Nat) (b : Nat) (hb : b ≠ ETX) (h : buf.length + 1 < 300) :
    rxByte ⟨TSIP_DLE, buf⟩ b = (⟨TSIP_IN_PARTIAL, buf ++ [b]⟩, none) := by
  have h2 : ¬ 300 ≤ buf.length + 1 := by omega
  simp [rxByte, RxLocals.nPktLen, hb, h2, overflowCheck, TSIP_DLE, MSG_IN_COMPLETE,
    MAX_TSIP_PKT_LEN]

theorem rxByte_partial_dle (buf : List Nat) (h : buf.length < 300) :
    rxByte ⟨TSIP_IN_PARTIAL, buf⟩ DLE = (⟨TSIP_DLE, buf⟩, none) := by
  have h2 : ¬ 300 ≤ buf.length := by omega
  simp [rxByte, RxLocals.nPktLen, h2, overflowCheck, TSIP_IN_PARTIAL, TSIP_DLE, MSG_IN_COMPLETE,
    MAX_TSIP_PKT_LEN]

theorem rxByte_partial_other (buf : List Nat) (b : Nat) (hb : b ≠ DLE) :
    rxByte ⟨TSIP_IN_PARTIAL, buf⟩ b = (overflowCheck ⟨TSIP_IN_PARTIAL, buf ++ [b]⟩, none) := by
  simp [rxByte, hb, TSIP_IN_PARTIAL, TSIP_DLE, MSG_IN_COMPLETE]

/-- In state `MSG_IN_COMPLETE` the stale contents of the packet buffer do not matter. -/
theorem rxLoop_seeking_buf (buf : List Nat) (xs : List Nat) :
    (rxLoop ⟨MSG_IN_COMPLETE, buf⟩ xs).2 = (rxLoop ⟨MSG_IN_COMPLETE, []⟩ xs).2 ∧
      ((rxLoop ⟨MSG_IN_COMPLETE, buf⟩ xs).1.nParseState
        = (rxLoop ⟨MSG_IN_COMPLETE, []⟩ xs).1.nParseState) := by
  induction xs generalizing buf with
  | nil => simp [rxLoop_nil]
  | cons b bs ih =>
    by_cases hb : b = DLE
    · subst hb
      simp [rxLoop_cons, rxByte_seek_dle]
    · rw [rxLoop_cons, rxLoop_cons, rxByte_seek_other _ _ hb, rxByte_seek_other _ _ hb]
      have h1 : ∀ c : List Nat, ∃ c2, overflowCheck ⟨MSG_IN_COMPLETE, c⟩ = ⟨MSG_IN_COMPLETE, c2⟩ := by
        intro c
        unfold overflowCheck
        split
        · exact ⟨[], rfl⟩
        · exact ⟨c, rfl⟩
      obtain ⟨c1, hc1⟩ := h1 buf
      obtain ⟨c2, hc2⟩ := h1 []
      rw [hc1, hc2]
      have i1 := ih c1
      have i2 := ih c2
      simp only [Option.toList, List.nil_append]
      exact ⟨i1.1.trans i2.1.symm, i1.2.trans i2.2.symm⟩

/-- Bytes other than DLE read in state `MSG_IN_COMPLETE` are ignored. -/
theorem rxLoop_seeking_noise (buf : List Nat) (n : List Nat) (hn : ∀ b ∈ n, b ≠ DLE) :
    (rxLoop ⟨MSG_IN_COMPLETE, buf⟩ n).2 = [] ∧
      (rxLoop ⟨MSG_IN_COMPLETE, buf⟩ n).1.nParseState = MSG_IN_COMPLETE := by
  induction n generalizing buf with
  | nil => simp [rxLoop_nil]
  | cons b bs ih =>
    have hb : b ≠ DLE := hn b (List.mem_cons_self _ _)
    have hbs : ∀ c ∈ bs, c ≠ DLE := fun c hc => hn c (List.mem_cons_of_mem _ hc)
    rw [rxLoop_cons, rxByte_seek_other _ _ hb]
    unfold overflowCheck
    split
    · simpa using ih [] hbs
    · simpa using ih buf hbs

theorem stuff_append (xs ys : List Nat) : stuff (xs ++ ys) = stuff xs ++ stuff ys := by
  induction xs with
  | nil => rfl
  | cons b bs ih =>
    by_cases hb : b = DLE
    · simp [stuff, hb, ih]
    · simp [stuff, hb, ih]

theorem stuff_of_no_dle (xs : List Nat) (h : ∀ b ∈ xs, b ≠ DLE) : stuff xs = xs := by
  induction xs with
  | nil => rfl
  | cons b bs ih =>
    have hb : b ≠ DLE := h b (List.mem_cons_self _ _)
    simp [stuff, hb, ih (fun c hc => h c (List.mem_cons_of_mem _ hc))]

/-- In state `TSIP_IN_PARTIAL` a stuffed run of data is appended to the buffer with every
doubled DLE collapsed, as long as the buffer stays below `MAX_TSIP_PKT_LEN`. -/
theorem rxLoop_partial_stuff (d : List Nat) (buf : List Nat) (h : buf.length + d.length < 300) :
    rxLoop ⟨TSIP_IN_PARTIAL, buf⟩ (stuff d) = (⟨TSIP_IN_PARTIAL, buf ++ d⟩, []) := by
  induction d generalizing buf with
  | nil => simp [stuff, rxLoop_nil]
  | cons b bs ih =>
    simp only [List.length_cons] at h
    have hlen : (buf ++ [b]).length + bs.length < 300 := by simp; omega
    by_cases hb : b = DLE
    · subst hb
      have e : stuff (DLE :: bs) = DLE :: DLE :: stuff bs := by simp [stuff]
      rw [e, rxLoop_cons, rxByte_partial_dle _ (by omega), rxLoop_cons,
        rxByte_dle_other _ _ (by decide) (by omega), ih _ hlen]
      simp
    · have e : stuff (b :: bs) = b :: stuff bs := by simp [stuff, hb]
      rw [e, rxLoop_cons, rxByte_partial_other _ _ hb,
        overflowCheck_of_lt _ (by simp; omega), ih _ hlen]
      simp

/-- In state `TSIP_DLE` a stuffed run of DLE bytes is appended to the buffer collapsed, and the
state is `TSIP_DLE` again after it. -/
theorem rxLoop_dle_run (k : Nat) (buf : List Nat) (h : buf.length + k < 300) :
    rxLoop ⟨TSIP_DLE, buf⟩ (stuff (List.replicate k DLE))
      = (⟨TSIP_DLE, buf ++ List.replicate k DLE⟩, []) := by
  induction k generalizing buf with
  | zero => simp [stuff, rxLoop_nil]
  | succ k ih =>
    have e : stuff (List.replicate (k + 1) DLE) = DLE :: DLE :: stuff (List.replicate k DLE) := by
      simp [List.replicate_succ, stuff]
    have hlen : (buf ++ [DLE]).length + k < 300 := by simp; omega
    rw [e, rxLoop_cons, rxByte_dle_other _ _ (by decide) (by omega), rxLoop_cons,
      rxByte_partial_dle _ (by simp; omega), ih _ hlen]
    simp [List.replicate_succ]

/-- The closing `DLE ETX` read in state `TSIP_IN_PARTIAL` with at least two bytes accumulated
hands the buffer, with `DLE ETX` appended, to `ParsePkt`; the state afterwards is `TSIP_DLE`
with an empty buffer. -/
theorem rxLoop_partial_close (buf : List Nat) (h1 : 1 < buf.length) (h2 : buf.length < 300) :
    rxLoop ⟨TSIP_IN_PARTIAL, buf⟩ [DLE, ETX] = (⟨TSIP_DLE, []⟩, [buf ++ [DLE, ETX]]) := by
  rw [rxLoop_cons, rxByte_partial_dle _ h2, rxLoop_cons, rxByte_dle_etx_emit _ h1, rxLoop_nil]
  simp

/-- A stuffed payload `DLE^k ++ b :: rest` with `b` neither DLE nor ETX, followed by the closing
`DLE ETX`, read in state `TSIP_DLE` with a non-empty buffer that has room for it. -/
theorem rxLoop_dle_payload (k : Nat) (b : Nat) (rest buf : List Nat)
    (hb1 : b ≠ DLE) (hb2 : b ≠ ETX) (hbuf : 1 ≤ buf.length)
    (h : buf.length + (k + 1 + rest.length) < 300) :
    rxLoop ⟨TSIP_DLE, buf⟩ (stuff (List.replicate k DLE ++ b :: rest) ++ [DLE, ETX])
      = (⟨TSIP_DLE, []⟩, [buf ++ (List.replicate k DLE ++ b :: rest) ++ [DLE, ETX]]) := by
  have e : stuff (List.replicate k DLE ++ b :: rest) ++ [DLE, ETX]
      = stuff (List.replicate k DLE) ++ (b :: (stuff rest ++ [DLE, ETX])) := by
    simp [stuff_append, stuff, hb1]
  rw [e, rxLoop_append, rxLoop_dle_run k buf (by omega)]
  simp only [List.nil_append]
  rw [rxLoop_cons, rxByte_dle_other _ _ hb2 (by simp; omega)]
  simp only [Option.toList, List.nil_append]
  rw [rxLoop_append, rxLoop_partial_stuff rest _ (by simp; omega)]
  simp only [List.nil_append]
  rw [rxLoop_partial_close _ (by simp; omega) (by simp; omega)]
  simp

/-- A whole wire frame read in state `MSG_IN_COMPLETE`: exactly one packet is handed over, the
framed payload, for every payload of at most 298 bytes whose first byte other than DLE exists
and is not ETX. -/
theorem rxLoop_seeking_frame (k : Nat) (b : Nat) (rest buf : List Nat)
    (hb1 : b ≠ DLE) (hb2 : b ≠ ETX) (h : k + 1 + rest.length ≤ 298) :
    rxLoop ⟨MSG_IN_COMPLETE, buf⟩ (wireFrame (List.replicate k DLE ++ b :: rest))
      = (⟨TSIP_DLE, []⟩, [framedPkt (List.replicate k DLE ++ b :: rest)]) := by
  have e : wireFrame (List.replicate k DLE ++ b :: rest)
      = DLE :: (stuff (List.replicate k DLE ++ b :: rest) ++ [DLE, ETX]) := by
    simp [wireFrame]
  rw [e, rxLoop_cons, rxByte_seek_dle,
    rxLoop_dle_payload k b rest [DLE] hb1 hb2 (by simp) (by simp; omega)]
  simp [framedPkt]

theorem payloadBytes_framed (a : Nat) (p : List Nat) (x y : Nat) :
    payloadBytes ([a] ++ p ++ [x, y]) = p := by
  unfold payloadBytes
  have e : ([a] ++ p ++ [x, y]).length - 3 = p.length := by simp
  have e2 : List.drop 1 ([a] ++ p ++ [x, y]) = p ++ [x, y] := by simp
  rw [e, e2, List.take_left]

theorem drop_framed (a : Nat) (p : List Nat) (x y : Nat) :
    ([a] ++ p ++ [x, y]).drop (([a] ++ p ++ [x, y]).length - 2) = [x, y] := by
  have e : ([a] ++ p ++ [x, y]).length - 2 = ([a] ++ p).length := by simp
  rw [e, List.drop_left]

/-- In state `TSIP_IN_PARTIAL`, data without any DLE that fills the buffer up to
`MAX_TSIP_PKT_LEN` is dropped by the overflow check: nothing is handed over, and the state
is `MSG_IN_COMPLETE` afterwards. -/
theorem rxLoop_partial_overflow (xs : List Nat) (buf : List Nat) (hx : ∀ b ∈ xs, b ≠ DLE)
    (h1 : buf.length < 300) (h2 : 300 ≤ buf.length + xs.length) :
    (rxLoop ⟨TSIP_IN_PARTIAL, buf⟩ xs).2 = [] ∧
      (rxLoop ⟨TSIP_IN_PARTIAL, buf⟩ xs).1.nParseState = MSG_IN_COMPLETE := by
  induction xs generalizing buf with
  | nil => simp at h2; omega
  | cons b bs ih =>
    have hb : b ≠ DLE := hx b (List.mem_cons_self _ _)
    have hbs : ∀ c ∈ bs, c ≠ DLE := fun c hc => hx c (List.mem_cons_of_mem _ hc)
    simp only [List.length_cons] at h2
    rw [rxLoop_cons, rxByte_partial_other _ _ hb]
    by_cases hfull : 300 ≤ (buf ++ [b]).length
    · rw [overflowCheck_of_ge _ hfull]
      simpa using rxLoop_seeking_noise [] bs hbs
    · have hlt : (buf ++ [b]).length < 300 := by omega
      rw [overflowCheck_of_lt _ hlt]
      have hlen : 300 ≤ (buf ++ [b]).length + bs.length := by simp; omega
      simpa using ih (buf ++ [b]) hbs (by omega) hlen

/-- An opening DLE followed by at least 299 bytes, none a DLE and the first not ETX, read in
state `MSG_IN_COMPLETE`: nothing is handed over and the state is `MSG_IN_COMPLETE` again. -/
theorem rxLoop_oversize (junk buf : List Nat) (hj : 299 ≤ junk.length)
    (hnd : ∀ b ∈ junk, b ≠ DLE) (hfirst : junk.head? ≠ some ETX) :
    (rxLoop ⟨MSG_IN_COMPLETE, buf⟩ (DLE :: junk)).2 = [] ∧
      (rxLoop ⟨MSG_IN_COMPLETE, buf⟩ (DLE :: junk)).1.nParseState = MSG_IN_COMPLETE := by
  cases junk with
  | nil => simp at hj
  | cons j0 js =>
    have h0 : j0 ≠ ETX := by simpa using hfirst
    have hjs : ∀ c ∈ js, c ≠ DLE := fun c hc => hnd c (List.mem_cons_of_mem _ hc)
    simp only [List.length_cons] at hj
    rw [rxLoop_cons, rxByte_seek_dle, rxLoop_cons, rxByte_dle_other _ _ h0 (by simp)]
    simpa using rxLoop_partial_overflow js ([DLE] ++ [j0]) hjs (by simp) (by simp; omega)

/-- The packets handed over from locals in state `MSG_IN_COMPLETE` are those handed over from
the initial locals. -/
theorem rxLoop_of_seeking (s : RxLocals) (hs : s.nParseState = MSG_IN_COMPLETE) (xs : List Nat) :
    (rxLoop s xs).2 = ReceivePkt xs := by
  obtain ⟨st, buf⟩ := s
  simp only at hs
  subst hs
  exact (rxLoop_seeking_buf buf xs).1

/-- Any number of empty frames `DLE ETX` read in state `MSG_IN_COMPLETE` hands over nothing. -/
theorem rxLoop_empty_frames (k : Nat) (buf : List Nat) :
    (rxLoop ⟨MSG_IN_COMPLETE, buf⟩ (List.replicate k [DLE, ETX]).flatten).2 = [] := by
  induction k generalizing buf with
  | zero => simp [rxLoop_nil]
  | succ k ih =>
    have e : (List.replicate (k + 1) [DLE, ETX]).flatten
        = DLE :: ETX :: (List.replicate k [DLE, ETX]).flatten := by
      simp [List.replicate_succ]
    rw [e, rxLoop_cons, rxByte_seek_dle, rxLoop_cons, rxByte_dle_etx_empty _ (by simp)]
    simpa using ih [DLE]

/-- The wire frame of a payload `ID :: data` with `ID` neither DLE nor ETX and at most 297
bytes yields exactly its framed packet. -/
theorem receivePkt_frame_eq (ID : Nat) (data : List Nat)
    (h10 : ID ≠ 0x10) (h03 : ID ≠ 0x03) (hlen : (ID :: data).length ≤ 297) :
    ReceivePkt ([0x10] ++ stuff (ID :: data) ++ [0x10, 0x03])
      = [[0x10] ++ (ID :: data) ++ [0x10, 0x03]] := by
  have h := rxLoop_seeking_frame 0 ID data [] h10 h03 (by simp at hlen; omega)
  simpa [ReceivePkt, rxInit, wireFrame, framedPkt, DLE, ETX] using congrArg Prod.snd h

/-- A frame whose payload `b :: rest` holds no DLE, read from the initial locals: the packet
handed over, and the locals just before the closing ETX is read. -/
theorem rxLoop_plain_frame (b : Nat) (rest : List Nat) (hb1 : b ≠ 0x10) (hb2 : b ≠ 0x03)
    (hrest : ∀ c ∈ rest, c ≠ DLE) (hlen : 1 + rest.length ≤ 298) :
    ReceivePkt ([0x10] ++ (b :: rest) ++ [0x10, 0x03]) = [[0x10] ++ (b :: rest) ++ [0x10, 0x03]] ∧
    (rxLoop rxInit ([0x10] ++ (b :: rest) ++ [0x10])).1 = ⟨TSIP_DLE, [0x10] ++ (b :: rest)⟩ := by
  have hs : stuff rest = rest := stuff_of_no_dle rest hrest
  have hsb : stuff (b :: rest) = b :: rest := by
    have hb1c : b ≠ DLE := hb1
    simp [stuff, hb1c, hs]
  constructor
  · have h := congrArg Prod.snd (rxLoop_seeking_frame 0 b rest [] hb1 hb2 (by omega))
    simp only [List.replicate_zero, List.nil_append, wireFrame, hsb, framedPkt] at h
    exact h
  · have e : ([0x10] ++ (b :: rest) ++ [0x10] : List Nat) = DLE :: b :: (stuff rest ++ [DLE]) := by
      rw [hs]
      rfl
    have h2 := rxLoop_partial_stuff rest [DLE, b] (by simp; omega)
    unfold rxInit
    rw [e, rxLoop_cons, rxByte_seek_dle, rxLoop_cons, rxByte_dle_other _ _ hb2 (by simp),
      rxLoop_append]
    simp only [List.singleton_append]
    rw [h2, rxLoop_cons, rxByte_partial_dle _ (by simp; omega), rxLoop_nil]
    rfl

/-! ## The framer: one frame -/

/-- C1: for every payload `p = ID :: data` with `ID` neither `0x10` nor `0x03` and at most
297 bytes, `ReceivePkt` run on `[0x10] ++ stuff p ++ [0x10, 0x03]` hands exactly one packet to
`ParsePkt`, namely `[0x10] ++ p ++ [0x10, 0x03]`: every doubled `0x10` is collapsed to one. -/
theorem receivePkt_single_frame (ID : Nat) (data : List Nat)
    (h10 : ID ≠ 0x10) (h03 : ID ≠ 0x03) (hlen : (ID :: data).length ≤ 297) :
    ReceivePkt ([0x10] ++ stuff (ID :: data) ++ [0x10, 0x03])
      = [[0x10] ++ (ID :: data) ++ [0x10, 0x03]] := by
  exact receivePkt_frame_eq ID data h10 h03 hlen

theorem receivePkt_single_frame_witness :
    ((0x8F : Nat) ≠ 0x10 ∧ (0x8F : Nat) ≠ 0x03 ∧ ((0x8F : Nat) :: [0x10, 0x03, 0x41]).length ≤ 297) ∧
    ReceivePkt ([0x10] ++ stuff (0x8F :: [0x10, 0x03, 0x41]) ++ [0x10, 0x03])
      = [[0x10] ++ (0x8F :: [0x10, 0x03, 0x41]) ++ [0x10, 0x03]] :=
  ⟨by decide, receivePkt_single_frame 0x8F [0x10, 0x03, 0x41] (by decide) (by decide) (by decide)⟩

/-- C2, as stated, fails: the one-byte payloads `[0x10]` and `[0x03]` are non-empty and within
297 bytes, yet their wire frames make `ReceivePkt` hand over no packet at all, so the round
trip does not hold for all payloads. -/
theorem receivePkt_roundtrip_unrestricted_fails :
    ReceivePkt ([0x10] ++ stuff [0x10] ++ [0x10, 0x03]) = [] ∧
    ReceivePkt ([0x10] ++ stuff [0x03] ++ [0x10, 0x03]) = [] ∧
    ¬ (∀ p : List Nat, p ≠ [] → p.length ≤ 297 →
        ∃ pkt, ReceivePkt ([0x10] ++ stuff p ++ [0x10, 0x03]) = [pkt] ∧ payloadBytes pkt = p) := by
  refine ⟨by decide, by decide, ?_⟩
  intro h
  obtain ⟨pkt, hp, _⟩ := h [0x10] (by decide) (by decide)
  have h0 : ReceivePkt ([0x10] ++ stuff [0x10] ++ [0x10, 0x03]) = [] := by decide
  rw [h0] at hp
  exact List.noConfusion hp

/-- C2, amended: for every payload `p` of at most 297 bytes that consists of `k ≥ 0` bytes
`0x10` followed by a byte `b` that is neither `0x10` nor `0x03` and then any bytes (so every
`p` whose first byte is neither `0x10` nor `0x03`), `ReceivePkt` run on
`[0x10] ++ stuff p ++ [0x10, 0x03]` hands over exactly one packet; it starts with `0x10`, ends
with `0x10 0x03`, and the bytes in between are exactly `p`. -/
theorem receivePkt_roundtrip (k : Nat) (b : Nat) (rest : List Nat)
    (hb10 : b ≠ 0x10) (hb03 : b ≠ 0x03)
    (hlen : (List.replicate k 0x10 ++ b :: rest).length ≤ 297) :
    ∃ pkt, ReceivePkt ([0x10] ++ stuff (List.replicate k 0x10 ++ b :: rest) ++ [0x10, 0x03])
        = [pkt] ∧
      pkt.head? = some 0x10 ∧ pkt.drop (pkt.length - 2) = [0x10, 0x03] ∧
      payloadBytes pkt = List.replicate k 0x10 ++ b :: rest := by
  have hl : k + 1 + rest.length ≤ 298 := by simp at hlen; omega
  have h := congrArg Prod.snd (rxLoop_seeking_frame k b rest [] hb10 hb03 hl)
  refine ⟨[0x10] ++ (List.replicate k 0x10 ++ b :: rest) ++ [0x10, 0x03], ?_, ?_, ?_, ?_⟩
  · simpa [ReceivePkt, rxInit, wireFrame, framedPkt, DLE, ETX] using h
  · simp
  · exact drop_framed _ _ _ _
  · exact payloadBytes_framed _ _ _ _

theorem receivePkt_roundtrip_witness :
    ((0x41 : Nat) ≠ 0x10 ∧ (0x41 : Nat) ≠ 0x03 ∧
      (List.replicate 2 0x10 ++ (0x41 : Nat) :: [0x10, 0x03]).length ≤ 297) ∧
    ∃ pkt, ReceivePkt ([0x10] ++ stuff (List.replicate 2 0x10 ++ 0x41 :: [0x10, 0x03])
          ++ [0x10, 0x03]) = [pkt] ∧
      pkt.head? = some 0x10 ∧ pkt.drop (pkt.length - 2) = [0x10, 0x03] ∧
      payloadBytes pkt = List.replicate 2 0x10 ++ 0x41 :: [0x10, 0x03] :=
  ⟨by decide, receivePkt_roundtrip 2 0x41 [0x10, 0x03] (by decide) (by decide) (by decide)⟩

/-! ## The framer: what follows a packet -/

/-- C3, evaluated on the stream `10 41 10 03 41 42 10 03`: after the frame `10 41 10 03` is
handed over, the locals are in state `TSIP_DLE` (not `MSG_IN_COMPLETE`) with an empty buffer,
so the trailing bytes `41 42 10 03`, which alone yield no packet, are handed to `ParsePkt` as
a second packet. -/
theorem receivePkt_trailing_bytes_emitted :
    ReceivePkt [0x10, 0x41, 0x10, 0x03] = [[0x10, 0x41, 0x10, 0x03]] ∧
    ReceivePkt [0x41, 0x42, 0x10, 0x03] = [] ∧
    ReceivePkt ([0x10, 0x41, 0x10, 0x03] ++ [0x41, 0x42, 0x10, 0x03])
      = [[0x10, 0x41, 0x10, 0x03], [0x41, 0x42, 0x10, 0x03]] ∧
    (rxLoop rxInit [0x10, 0x41, 0x10, 0x03]).1 = ⟨TSIP_DLE, []⟩ := by
  decide

/-- C4, evaluated on the stream `10 8F 10 03 55 8F 10 03`: the second packet handed to
`ParsePkt` is `55 8F 10 03`, whose first byte is `0x55`, not `0x10`, and whose second byte
`0x8F` did not follow a `0x10` on the wire. -/
theorem receivePkt_packet_without_start :
    ReceivePkt [0x10, 0x8F, 0x10, 0x03, 0x55, 0x8F, 0x10, 0x03]
      = [[0x10, 0x8F, 0x10, 0x03], [0x55, 0x8F, 0x10, 0x03]] ∧
    ∃ pkt ∈ ReceivePkt [0x10, 0x8F, 0x10, 0x03, 0x55, 0x8F, 0x10, 0x03],
      pkt.head? ≠ some 0x10 := by
  refine ⟨by decide, [0x55, 0x8F, 0x10, 0x03], by decide, by decide⟩

/-- C5, evaluated on the frame whose payload is 298 bytes `0x41`: before the closing ETX is
read `nPktLen` is 299, so the closing `DLE ETX` is stored at `ucPkt[299]` and `ucPkt[300]`, and
the packet handed to `ParsePkt` has 301 bytes, one more than `MAX_TSIP_PKT_LEN`. -/
theorem receivePkt_packet_exceeds_buffer :
    ReceivePkt ([0x10] ++ (0x41 :: List.replicate 297 0x41) ++ [0x10, 0x03])
      = [[0x10] ++ (0x41 :: List.replicate 297 0x41) ++ [0x10, 0x03]] ∧
    ([0x10] ++ (0x41 :: List.replicate 297 0x41) ++ [0x10, 0x03] : List Nat).length = 301 ∧
    (rxLoop rxInit ([0x10] ++ (0x41 :: List.replicate 297 0x41) ++ [0x10])).1.nPktLen = 299 ∧
    MAX_TSIP_PKT_LEN = 300 := by
  have hr : ∀ c ∈ (List.replicate 297 0x41 : List Nat), c ≠ DLE := by
    intro c hc
    rw [List.eq_of_mem_replicate hc]
    decide
  have hl : 1 + (List.replicate 297 0x41 : List Nat).length ≤ 298 := by
    rw [List.length_replicate]
  have h := rxLoop_plain_frame 0x41 (List.replicate 297 0x41) (by decide) (by decide) hr hl
  refine ⟨h.1, ?_, ?_, rfl⟩
  · simp only [List.length_append, List.length_cons, List.length_replicate, List.length_nil]
  · rw [h.2]
    simp only [RxLocals.nPktLen, List.length_append, List.length_cons, List.length_replicate,
      List.length_nil]

/-- C6: for every stream `[0x10] ++ junk ++ w` where `junk` has at least 299 bytes, none equal
to `0x10` and the first not `0x03`, and `w` is the wire frame of a payload `ID :: data` with
`ID` neither `0x10` nor `0x03` and at most 297 bytes, `ReceivePkt` hands over no packet for
the oversize span `[0x10] ++ junk` and exactly the one packet of `w` for the whole stream. -/
theorem receivePkt_oversize_resync (junk : List Nat) (ID : Nat) (data : List Nat)
    (hj : 299 ≤ junk.length) (hnd : ∀ b ∈ junk, b ≠ 0x10) (hfirst : junk.head? ≠ some 0x03)
    (h10 : ID ≠ 0x10) (h03 : ID ≠ 0x03) (hlen : (ID :: data).length ≤ 297) :
    ReceivePkt ([0x10] ++ junk) = [] ∧
    ReceivePkt ([0x10] ++ junk ++ ([0x10] ++ stuff (ID :: data) ++ [0x10, 0x03]))
      = [[0x10] ++ (ID :: data) ++ [0x10, 0x03]] := by
  have ho := rxLoop_oversize junk [] hj hnd hfirst
  have hw := receivePkt_frame_eq ID data h10 h03 hlen
  constructor
  · simpa [ReceivePkt, rxInit, DLE] using ho.1
  · have e : ([0x10] ++ junk ++ ([0x10] ++ stuff (ID :: data) ++ [0x10, 0x03]) : List Nat)
        = (DLE :: junk) ++ ([0x10] ++ stuff (ID :: data) ++ [0x10, 0x03]) := by simp [DLE]
    unfold ReceivePkt rxInit
    rw [e, rxLoop_append, ho.1, rxLoop_of_seeking _ ho.2, hw]
    simp

theorem receivePkt_oversize_resync_witness :
    (299 ≤ (List.replicate 299 0x41 : List Nat).length ∧
      (∀ b ∈ (List.replicate 299 0x41 : List Nat), b ≠ 0x10) ∧
      (List.replicate 299 0x41 : List Nat).head? ≠ some 0x03 ∧
      (0x8F : Nat) ≠ 0x10 ∧ (0x8F : Nat) ≠ 0x03 ∧ ((0x8F : Nat) :: [0x10, 0x20]).length ≤ 297) ∧
    (ReceivePkt ([0x10] ++ List.replicate 299 0x41) = [] ∧
    ReceivePkt ([0x10] ++ List.replicate 299 0x41 ++
        ([0x10] ++ stuff (0x8F :: [0x10, 0x20]) ++ [0x10, 0x03]))
      = [[0x10] ++ (0x8F :: [0x10, 0x20]) ++ [0x10, 0x03]]) :=
  have h1 : 299 ≤ (List.replicate 299 0x41 : List Nat).length :=
    (List.length_replicate 299 (0x41 : Nat)).ge
  have h2 : ∀ b ∈ (List.replicate 299 0x41 : List Nat), b ≠ 0x10 := by
    intro b hb
    rw [List.eq_of_mem_replicate hb]
    decide
  have h3 : (List.replicate 299 0x41 : List Nat).head? ≠ some 0x03 := by
    rw [show (List.replicate 299 0x41 : List Nat) = 0x41 :: List.replicate 298 0x41 from rfl]
    decide
  ⟨⟨h1, h2, h3, by decide, by decide, by decide⟩,
    receivePkt_oversize_resync (List.replicate 299 0x41) 0x8F [0x10, 0x20] h1 h2 h3
      (by decide) (by decide) (by decide)⟩

/-- C7: for every byte sequence `n` without a `0x10` byte and every byte sequence `s`,
`ReceivePkt` hands over for `n ++ s` exactly the packets it hands over for `s`; an input
without any `0x10` byte, and the empty input, yield no packet. -/
theorem receivePkt_leading_noise (n s : List Nat) (hn : ∀ b ∈ n, b ≠ 0x10) :
    ReceivePkt (n ++ s) = ReceivePkt s ∧ ReceivePkt n = [] ∧ ReceivePkt [] = [] := by
  have h := rxLoop_seeking_noise [] n hn
  refine ⟨?_, h.1, rfl⟩
  unfold ReceivePkt rxInit
  rw [rxLoop_append, h.1, rxLoop_of_seeking _ h.2]
  simp [ReceivePkt, rxInit]

theorem receivePkt_leading_noise_witness :
    (∀ b ∈ ([0x03, 0x41, 0x00] : List Nat), b ≠ 0x10) ∧
    (ReceivePkt ([0x03, 0x41, 0x00] ++ [0x10, 0x41, 0x10, 0x03]) = ReceivePkt [0x10, 0x41, 0x10, 0x03]
      ∧ ReceivePkt [0x03, 0x41, 0x00] = [] ∧ ReceivePkt [] = []) :=
  ⟨by decide, receivePkt_leading_noise [0x03, 0x41, 0x00] [0x10, 0x41, 0x10, 0x03] (by decide)⟩

/-- C8: for every `k`, `ReceivePkt` run on `k` repetitions of the two bytes `0x10 0x03` hands
over no packet: an empty frame is never delivered. -/
theorem receivePkt_empty_frames (k : Nat) :
    ReceivePkt (List.replicate k [0x10, 0x03]).flatten = [] := by
  simpa [ReceivePkt, rxInit, DLE, ETX] using rxLoop_empty_frames k []


/-! ## The dispatcher and the length checks -/

theorem byteAt_drop (d : List Nat) (k i : Nat) : byteAt (d.drop k) i = byteAt d (k + i) := by
  simp [byteAt, List.getD_eq_getElem?_getD, List.getElem?_drop]

theorem byteAt_take (d : List Nat) (n i : Nat) (h : i < n) :
    byteAt (d.take n) i = byteAt d i := by
  simp [byteAt, List.getD_eq_getElem?_getD, List.getElem?_take, h]

/-- The decoder `Parse0x8F20` reads only the first `nLen` bytes of its data string. -/
theorem Parse0x8F20_congr (d e : List Nat) (nLen : Int)
    (h : ∀ i : Nat, (i : Int) < nLen → byteAt d i = byteAt e i) :
    Parse0x8F20 d nLen = Parse0x8F20 e nLen := by
  have key : ∀ m : Nat, ((32 + 2 * m : Nat) : Int) ≤ nLen →
      extract0x8F20 d m = extract0x8F20 e m := by
    intro m hm
    have hk : ∀ k : Nat, k < 32 → byteAt d k = byteAt e k := fun k hk => h k (by omega)
    have hp : (List.range m).map (svPrn d) = (List.range m).map (svPrn e) := by
      apply List.map_congr_left
      intro i hi
      rw [List.mem_range] at hi
      simp only [svPrn, h (32 + 2 * i) (by omega)]
    have hi : (List.range m).map (svIODE d) = (List.range m).map (svIODE e) := by
      apply List.map_congr_left
      intro i hi
      rw [List.mem_range] at hi
      simp only [svIODE, svPrn, h (32 + 2 * i) (by omega), h (33 + 2 * i) (by omega)]
    simp only [extract0x8F20, GetShort, GetULong, GetLong, byteAt_drop, hp, hi]
    simp [hk]
  unfold Parse0x8F20
  by_cases h56 : nLen = 56
  · rw [if_pos h56, if_pos h56, key 8 (by omega)]
  · by_cases h64 : nLen = 64
    · rw [if_neg h56, if_neg h56, if_pos h64, if_pos h64, key 12 (by omega)]
    · rw [if_neg h56, if_neg h56, if_neg h64, if_neg h64]

/-- The decoder `Parse0x8FAB` reads only the first `nLen` bytes of its data string. -/
theorem Parse0x8FAB_congr (d e : List Nat) (nLen : Int)
    (h : ∀ i : Nat, (i : Int) < nLen → byteAt d i = byteAt e i) :
    Parse0x8FAB d nLen = Parse0x8FAB e nLen := by
  unfold Parse0x8FAB
  by_cases h17 : nLen = 17
  · have hk : ∀ k : Nat, k < 17 → byteAt d k = byteAt e k := fun k hk => h k (by omega)
    simp only [GetShort, GetUShort, GetULong, byteAt_drop]
    simp [h17, hk]
  · simp [h17]

/-- The decoder `Parse0x8FAC` reads only the first `nLen` bytes of its data string. -/
theorem Parse0x8FAC_congr (d e : List Nat) (nLen : Int)
    (h : ∀ i : Nat, (i : Int) < nLen → byteAt d i = byteAt e i) :
    Parse0x8FAC d nLen = Parse0x8FAC e nLen := by
  unfold Parse0x8FAC
  by_cases h68 : nLen = 68
  · have hk : ∀ k : Nat, k < 68 → byteAt d k = byteAt e k := fun k hk => h k (by omega)
    simp only [GetUShort, GetULong, GetSingle, GetDouble, byteAt_drop]
    simp [h68, hk]
  · simp [h68]

/-- The bytes `pkt[2 .. len-3]` of a packet agree with the bytes behind `&pkt[2]` at every
offset below `len - 4`. -/
theorem span_byteAt (pkt : List Nat) (i : Nat) (h : (i : Int) < (pkt.length : Int) - 4) :
    byteAt ((pkt.drop 2).take (pkt.length - 4)) i = byteAt (pkt.drop 2) i :=
  byteAt_take _ _ _ (by omega)

/-- C9: for every framed packet `pkt` (at least four bytes, `nPktLen` its length), `ParsePkt`
invokes a record decoder only when `pkt[1] = 0x8F` and `pkt[2]` is `0x20` (`Parse0x8F20`),
`0xAB` (`Parse0x8FAB`) or `0xAC` (`Parse0x8FAC`); the decoder's result is determined by the span
`pkt[2 .. len-3]`, of length `len - 4`, and the length `len - 4` it is passed.  For every other
identifier or sub-identifier nothing is decoded. -/
theorem parsePkt_dispatch (pkt : List Nat) (hlen : 4 ≤ pkt.length) :
    ((pkt.drop 2).take (pkt.length - 4)).length = pkt.length - 4 ∧
    (byteAt pkt 1 = 0x8F → byteAt pkt 2 = 0x20 →
      ParsePkt pkt pkt.length
        = (Parse0x8F20 ((pkt.drop 2).take (pkt.length - 4)) ((pkt.length : Int) - 4)).map
            Decoded.fix8F20) ∧
    (byteAt pkt 1 = 0x8F → byteAt pkt 2 = 0xAB →
      ParsePkt pkt pkt.length
        = (Parse0x8FAB ((pkt.drop 2).take (pkt.length - 4)) ((pkt.length : Int) - 4)).map
            Decoded.utc8FAB) ∧
    (byteAt pkt 1 = 0x8F → byteAt pkt 2 = 0xAC →
      ParsePkt pkt pkt.length
        = (Parse0x8FAC ((pkt.drop 2).take (pkt.length - 4)) ((pkt.length : Int) - 4)).map
            Decoded.disc8FAC) ∧
    (¬ (byteAt pkt 1 = 0x8F ∧ (byteAt pkt 2 = 0x20 ∨ byteAt pkt 2 = 0xAB ∨ byteAt pkt 2 = 0xAC)) →
      ParsePkt pkt pkt.length = none) := by
  have h2 : byteAt (pkt.drop 2) 0 = byteAt pkt 2 := byteAt_drop pkt 2 0
  refine ⟨?_, ?_, ?_, ?_, ?_⟩
  · rw [List.length_take, List.length_drop]
    omega
  · intro h1 h20
    rw [Parse0x8F20_congr _ (pkt.drop 2) _ (span_byteAt pkt)]
    simp [ParsePkt, Parse0x8F, h1, h2, h20]
  · intro h1 hAB
    rw [Parse0x8FAB_congr _ (pkt.drop 2) _ (span_byteAt pkt)]
    simp [ParsePkt, Parse0x8F, h1, h2, hAB]
  · intro h1 hAC
    rw [Parse0x8FAC_congr _ (pkt.drop 2) _ (span_byteAt pkt)]
    simp [ParsePkt, Parse0x8F, h1, h2, hAC]
  · intro hn
    unfold ParsePkt
    by_cases h1 : byteAt pkt 1 = 0x8F
    · have h3 : ¬ (byteAt pkt 2 = 0x20 ∨ byteAt pkt 2 = 0xAB ∨ byteAt pkt 2 = 0xAC) :=
        fun hh => hn ⟨h1, hh⟩
      simp only [not_or] at h3
      simp [Parse0x8F, h1, h2, h3.1, h3.2.1, h3.2.2]
    · simp [h1]

theorem parsePkt_dispatch_witness :
    4 ≤ samplePkt8FAB.length ∧
    (((samplePkt8FAB.drop 2).take (samplePkt8FAB.length - 4)).length
        = samplePkt8FAB.length - 4 ∧
    (byteAt samplePkt8FAB 1 = 0x8F → byteAt samplePkt8FAB 2 = 0x20 →
      ParsePkt samplePkt8FAB samplePkt8FAB.length
        = (Parse0x8F20 ((samplePkt8FAB.drop 2).take (samplePkt8FAB.length - 4))
            ((samplePkt8FAB.length : Int) - 4)).map Decoded.fix8F20) ∧
    (byteAt samplePkt8FAB 1 = 0x8F → byteAt samplePkt8FAB 2 = 0xAB →
      ParsePkt samplePkt8FAB samplePkt8FAB.length
        = (Parse0x8FAB ((samplePkt8FAB.drop 2).take (samplePkt8FAB.length - 4))
            ((samplePkt8FAB.length : Int) - 4)).map Decoded.utc8FAB) ∧
    (byteAt samplePkt8FAB 1 = 0x8F → byteAt samplePkt8FAB 2 = 0xAC →
      ParsePkt samplePkt8FAB samplePkt8FAB.length
        = (Parse0x8FAC ((samplePkt8FAB.drop 2).take (samplePkt8FAB.length - 4))
            ((samplePkt8FAB.length : Int) - 4)).map Decoded.disc8FAC) ∧
    (¬ (byteAt samplePkt8FAB 1 = 0x8F ∧ (byteAt samplePkt8FAB 2 = 0x20 ∨
        byteAt samplePkt8FAB 2 = 0xAB ∨ byteAt samplePkt8FAB 2 = 0xAC)) →
      ParsePkt samplePkt8FAB samplePkt8FAB.length = none)) :=
  ⟨by decide, parsePkt_dispatch samplePkt8FAB (by decide)⟩

/-- The scenario of an unrecognised identifier: the frame with identifier `0x99` is handed to
`ParsePkt` by the framer, and nothing is decoded from it. -/
theorem receivePkt_unknown_identifier :
    ReceivePkt [0x10, 0x99, 0x01, 0x02, 0x10, 0x03] = [[0x10, 0x99, 0x01, 0x02, 0x10, 0x03]] ∧
    ReceivePktDecoded [0x10, 0x99, 0x01, 0x02, 0x10, 0x03] = [none] := by
  decide

/-- C10: `Parse0x8F20` yields a record iff the payload length is 56 or 64; for length 56 the
record holds exactly 8 decoded PRN and IODE entries, for length 64 exactly 12, and for every
other length nothing is decoded. -/
theorem parse0x8F20_length_check (ucData : List Nat) (nLen : Int) :
    ((Parse0x8F20 ucData nLen).isSome ↔ (nLen = 56 ∨ nLen = 64)) ∧
    (nLen = 56 → ∃ r, Parse0x8F20 ucData nLen = some r ∧ r.ucMaxSVs = 8 ∧
      r.ucSvPrn.length = 8 ∧ r.ucSvIODE.length = 8) ∧
    (nLen = 64 → ∃ r, Parse0x8F20 ucData nLen = some r ∧ r.ucMaxSVs = 12 ∧
      r.ucSvPrn.length = 12 ∧ r.ucSvIODE.length = 12) ∧
    (nLen ≠ 56 → nLen ≠ 64 → Parse0x8F20 ucData nLen = none) := by
  refine ⟨?_, ?_, ?_, ?_⟩
  · unfold Parse0x8F20
    by_cases h56 : nLen = 56
    · simp [h56]
    · by_cases h64 : nLen = 64
      · simp [h64]
      · simp [h56, h64]
  · intro h
    exact ⟨extract0x8F20 ucData 8, by simp [Parse0x8F20, h], rfl, by simp [extract0x8F20],
      by simp [extract0x8F20]⟩
  · intro h
    exact ⟨extract0x8F20 ucData 12, by simp [Parse0x8F20, h], rfl, by simp [extract0x8F20],
      by simp [extract0x8F20]⟩
  · intro h56 h64
    simp [Parse0x8F20, h56, h64]


/-! ## Length checks of the UTC and discipline decoders, and the byte readers -/

/-- C11: `Parse0x8FAB` yields a record iff the payload length is exactly 17, and `Parse0x8FAC`
iff it is exactly 68; for every other length each decodes nothing. -/
theorem parse0x8FAB_0x8FAC_length_check (ucData : List Nat) (nLen : Int) :
    ((Parse0x8FAB ucData nLen).isSome ↔ nLen = 17) ∧
    ((Parse0x8FAC ucData nLen).isSome ↔ nLen = 68) ∧
    (nLen ≠ 17 → Parse0x8FAB ucData nLen = none) ∧
    (nLen ≠ 68 → Parse0x8FAC ucData nLen = none) := by
  refine ⟨?_, ?_, ?_, ?_⟩
  · by_cases h : nLen = 17 <;> simp [Parse0x8FAB, h]
  · by_cases h : nLen = 68 <;> simp [Parse0x8FAC, h]
  · intro h
    simp [Parse0x8FAB, h]
  · intro h
    simp [Parse0x8FAC, h]

theorem toS16_of_lt (v : Nat) (h : v < 65536) :
    toS16 v = if 32768 ≤ v then (v : Int) - 65536 else (v : Int) := by
  unfold toS16
  rw [Nat.mod_eq_of_lt h]

theorem toS32_of_lt (v : Nat) (h : v < 4294967296) :
    toS32 v = if 2147483648 ≤ v then (v : Int) - 4294967296 else (v : Int) := by
  unfold toS32
  rw [Nat.mod_eq_of_lt h]

/-- C12: with `S16`/`U16` 16 bits and `S32`/`U32` 32 bits wide, for all bytes `b0 .. b3` at the
pointer, `GetUShort` returns `256*b0 + b1` and `GetULong` returns
`2^24*b0 + 2^16*b1 + 2^8*b2 + b3`; `GetShort` and `GetLong` return the two's-complement
reading of those values, that is `2^16`, respectively `2^32`, less when `b0 ≥ 128`. -/
theorem byteReaders_bigEndian (b0 b1 b2 b3 : Nat) (t : List Nat)
    (h0 : b0 < 256) (h1 : b1 < 256) (h2 : b2 < 256) (h3 : b3 < 256) :
    GetUShort (b0 :: b1 :: t) = 256 * b0 + b1 ∧
    GetULong (b0 :: b1 :: b2 :: b3 :: t) = 2 ^ 24 * b0 + 2 ^ 16 * b1 + 2 ^ 8 * b2 + b3 ∧
    GetShort (b0 :: b1 :: t)
      = (if 128 ≤ b0 then ((256 * b0 + b1 : Nat) : Int) - 2 ^ 16
         else ((256 * b0 + b1 : Nat) : Int)) ∧
    GetLong (b0 :: b1 :: b2 :: b3 :: t)
      = (if 128 ≤ b0 then ((2 ^ 24 * b0 + 2 ^ 16 * b1 + 2 ^ 8 * b2 + b3 : Nat) : Int) - 2 ^ 32
         else ((2 ^ 24 * b0 + 2 ^ 16 * b1 + 2 ^ 8 * b2 + b3 : Nat) : Int)) := by
  have e0 : byteAt (b0 :: b1 :: t) 0 = b0 := rfl
  have e1 : byteAt (b0 :: b1 :: t) 1 = b1 := rfl
  have f0 : byteAt (b0 :: b1 :: b2 :: b3 :: t) 0 = b0 := rfl
  have f1 : byteAt (b0 :: b1 :: b2 :: b3 :: t) 1 = b1 := rfl
  have f2 : byteAt (b0 :: b1 :: b2 :: b3 :: t) 2 = b2 := rfl
  have f3 : byteAt (b0 :: b1 :: b2 :: b3 :: t) 3 = b3 := rfl
  refine ⟨?_, ?_, ?_, ?_⟩
  · rw [GetUShort, e0, e1]
    omega
  · rw [GetULong, f0, f1, f2, f3]
    omega
  · rw [GetShort, e0, e1, toS16_of_lt _ (by omega)]
    split_ifs <;> omega
  · rw [GetLong, f0, f1, f2, f3, toS32_of_lt _ (by omega)]
    split_ifs <;> omega

theorem byteReaders_bigEndian_witness :
    ((0xFF : Nat) < 256 ∧ (0xEE : Nat) < 256 ∧ (0x01 : Nat) < 256 ∧ (0x02 : Nat) < 256) ∧
    (GetUShort (0xFF :: 0xEE :: [0x03]) = 256 * 0xFF + 0xEE ∧
    GetULong (0xFF :: 0xEE :: 0x01 :: 0x02 :: [0x03])
      = 2 ^ 24 * 0xFF + 2 ^ 16 * 0xEE + 2 ^ 8 * 0x01 + 0x02 ∧
    GetShort (0xFF :: 0xEE :: [0x03])
      = (if 128 ≤ 0xFF then ((256 * 0xFF + 0xEE : Nat) : Int) - 2 ^ 16
         else ((256 * 0xFF + 0xEE : Nat) : Int)) ∧
    GetLong (0xFF :: 0xEE :: 0x01 :: 0x02 :: [0x03])
      = (if 128 ≤ 0xFF
         then ((2 ^ 24 * 0xFF + 2 ^ 16 * 0xEE + 2 ^ 8 * 0x01 + 0x02 : Nat) : Int) - 2 ^ 32
         else ((2 ^ 24 * 0xFF + 2 ^ 16 * 0xEE + 2 ^ 8 * 0x01 + 0x02 : Nat) : Int))) :=
  ⟨by decide, byteReaders_bigEndian 0xFF 0xEE 0x01 0x02 [0x03] (by decide) (by decide)
    (by decide) (by decide)⟩

/-! ## Fields of the primary fix -/

/-- For a valid length `Parse0x8F20` returns the extracted values, with 8 or 12 slots. -/
theorem Parse0x8F20_of_valid (ucData : List Nat) (nLen : Int) (h : nLen = 56 ∨ nLen = 64) :
    Parse0x8F20 ucData nLen = some (extract0x8F20 ucData (if nLen = 56 then 8 else 12)) := by
  rcases h with h | h <;> simp [Parse0x8F20, h]

theorem GetShort_drop (d : List Nat) (k : Nat) :
    GetShort (d.drop k) = toS16 (256 * byteAt d k + byteAt d (k + 1)) := by
  simp only [GetShort, byteAt_drop, Nat.add_zero]
  rw [Nat.add_comm]

theorem GetULong_drop (d : List Nat) (k : Nat) :
    GetULong (d.drop k)
      = 2 ^ 24 * byteAt d k + 2 ^ 16 * byteAt d (k + 1) + 2 ^ 8 * byteAt d (k + 2)
        + byteAt d (k + 3) := by
  simp only [GetULong, byteAt_drop, Nat.add_zero]
  omega

theorem GetUShort_drop (d : List Nat) (k : Nat) :
    GetUShort (d.drop k) = 256 * byteAt d k + byteAt d (k + 1) := by
  simp only [GetUShort, byteAt_drop, Nat.add_zero]
  rw [Nat.add_comm]

theorem extract0x8F20_velScale (d : List Nat) (m : Nat) :
    (extract0x8F20 d m).dblVelScale = if byteAt d 24 % 2 = 1 then 0.020 else 0.005 := by
  have h : (byteAt d 24 &&& 1 ≠ 0) ↔ byteAt d 24 % 2 = 1 := by
    rw [Nat.and_one_is_mod]
    omega
  simp only [extract0x8F20, h]

theorem extract0x8F20_enuVel (d : List Nat) (m : Nat) :
    (extract0x8F20 d m).dblEnuVel
      = [(toS16 (256 * byteAt d 2 + byteAt d 3) : ℚ) * (extract0x8F20 d m).dblVelScale,
         (toS16 (256 * byteAt d 4 + byteAt d 5) : ℚ) * (extract0x8F20 d m).dblVelScale,
         (toS16 (256 * byteAt d 6 + byteAt d 7) : ℚ) * (extract0x8F20 d m).dblVelScale] := by
  simp only [extract0x8F20, GetShort_drop]

/-- C13: for every length-valid payload, each of the three velocity components is the signed
big-endian 16-bit field at offset 2, 4 and 6 respectively, multiplied by 0.020 when bit 0 of
`d[24]` is set and by 0.005 when it is clear; a payload that differs only in the other bits of
`d[24]` has the same scale and the same velocity. -/
theorem parse0x8F20_velocity (ucData : List Nat) (nLen : Int) (h : nLen = 56 ∨ nLen = 64) :
    ∃ r, Parse0x8F20 ucData nLen = some r ∧
      r.dblVelScale = (if byteAt ucData 24 % 2 = 1 then 0.020 else 0.005) ∧
      r.dblEnuVel
        = [(toS16 (256 * byteAt ucData 2 + byteAt ucData 3) : ℚ) * r.dblVelScale,
           (toS16 (256 * byteAt ucData 4 + byteAt ucData 5) : ℚ) * r.dblVelScale,
           (toS16 (256 * byteAt ucData 6 + byteAt ucData 7) : ℚ) * r.dblVelScale] ∧
      ∀ e : List Nat, (∀ i, i ≠ 24 → byteAt e i = byteAt ucData i) →
        byteAt e 24 % 2 = byteAt ucData 24 % 2 →
        ∃ r2, Parse0x8F20 e nLen = some r2 ∧ r2.dblVelScale = r.dblVelScale ∧
          r2.dblEnuVel = r.dblEnuVel := by
  refine ⟨_, Parse0x8F20_of_valid ucData nLen h, extract0x8F20_velScale _ _,
    extract0x8F20_enuVel _ _, ?_⟩
  intro e he hbit
  refine ⟨_, Parse0x8F20_of_valid e nLen h, ?_, ?_⟩
  · rw [extract0x8F20_velScale, extract0x8F20_velScale, hbit]
  · rw [extract0x8F20_enuVel, extract0x8F20_enuVel, extract0x8F20_velScale,
      extract0x8F20_velScale, hbit, he 2 (by decide), he 3 (by decide), he 4 (by decide),
      he 5 (by decide), he 6 (by decide), he 7 (by decide)]

theorem parse0x8F20_velocity_witness :
    ((56 : Int) = 56 ∨ (56 : Int) = 64) ∧
    ∃ r, Parse0x8F20 samplePayload8F20b 56 = some r ∧
      r.dblVelScale = (if byteAt samplePayload8F20b 24 % 2 = 1 then 0.020 else 0.005) ∧
      r.dblEnuVel
        = [(toS16 (256 * byteAt samplePayload8F20b 2 + byteAt samplePayload8F20b 3) : ℚ)
              * r.dblVelScale,
           (toS16 (256 * byteAt samplePayload8F20b 4 + byteAt samplePayload8F20b 5) : ℚ)
              * r.dblVelScale,
           (toS16 (256 * byteAt samplePayload8F20b 6 + byteAt samplePayload8F20b 7) : ℚ)
              * r.dblVelScale] ∧
      ∀ e : List Nat, (∀ i, i ≠ 24 → byteAt e i = byteAt samplePayload8F20b i) →
        byteAt e 24 % 2 = byteAt samplePayload8F20b 24 % 2 →
        ∃ r2, Parse0x8F20 e 56 = some r2 ∧ r2.dblVelScale = r.dblVelScale ∧
          r2.dblEnuVel = r.dblEnuVel :=
  ⟨Or.inl rfl, parse0x8F20_velocity samplePayload8F20b 56 (Or.inl rfl)⟩

theorem GPS_PI_pos : 0 < GPS_PI := by
  unfold GPS_PI
  norm_num

theorem extract0x8F20_lon (d : List Nat) (m : Nat) :
    (extract0x8F20 d m).dblLon
      = if (GetULong (d.drop 16) : ℚ) * (GPS_PI / 2 ^ 31) ≤ GPS_PI
        then (GetULong (d.drop 16) : ℚ) * (GPS_PI / 2 ^ 31)
        else (GetULong (d.drop 16) : ℚ) * (GPS_PI / 2 ^ 31) - 2 * GPS_PI := by
  have e1 : MAX_LONG = 2 ^ 31 := by
    unfold MAX_LONG
    norm_num
  have e2 : (2.0 : ℚ) = 2 := by norm_num
  simp only [extract0x8F20, e1, e2, gt_iff_lt]
  by_cases hle : (GetULong (d.drop 16) : ℚ) * (GPS_PI / 2 ^ 31) ≤ GPS_PI
  · rw [if_pos hle, if_neg (not_lt.mpr hle)]
  · rw [if_neg hle, if_pos (not_le.mp hle)]

/-- The scaled longitude `r * (P / 2^31)` compared with `P`, for a positive `P`. -/
theorem lon_scaled_bounds (P : ℚ) (hP : 0 < P) (r : Nat) (hr : r < 2 ^ 32) :
    ((r : ℚ) * (P / 2 ^ 31) ≤ P ↔ r ≤ 2 ^ 31) ∧ 0 ≤ (r : ℚ) * (P / 2 ^ 31) ∧
      (r : ℚ) * (P / 2 ^ 31) < 2 * P := by
  have hx : (r : ℚ) * (P / 2 ^ 31) = P * ((r : ℚ) / 2 ^ 31) := by ring
  have hr2 : (r : ℚ) < 2 ^ 32 := by exact_mod_cast hr
  have hr0 : (0 : ℚ) ≤ r := Nat.cast_nonneg r
  refine ⟨?_, ?_, ?_⟩
  · rw [hx]
    constructor
    · intro h
      have h1 : (r : ℚ) / 2 ^ 31 ≤ 1 := by
        by_contra hc
        have hc2 : 1 < (r : ℚ) / 2 ^ 31 := not_le.mp hc
        have := mul_lt_mul_of_pos_left hc2 hP
        linarith
      have h2 : (r : ℚ) ≤ 2 ^ 31 := by
        rw [div_le_one (by norm_num)] at h1
        exact h1
      exact_mod_cast h2
    · intro h
      have h2 : (r : ℚ) ≤ 2 ^ 31 := by exact_mod_cast h
      have h1 : (r : ℚ) / 2 ^ 31 ≤ 1 := by
        rw [div_le_one (by norm_num)]
        exact h2
      have := mul_le_mul_of_nonneg_left h1 hP.le
      linarith
  · rw [hx]
    exact mul_nonneg hP.le (div_nonneg hr0 (by norm_num))
  · rw [hx]
    have h1 : (r : ℚ) / 2 ^ 31 < 2 := by
      rw [div_lt_iff₀ (by norm_num)]
      linarith
    have := mul_lt_mul_of_pos_left h1 hP
    linarith

/-- C14: for every raw unsigned 32-bit value `r` at offset 16 of a length-valid payload, the
decoded longitude is `r*(PI/2^31)` when that does not exceed `PI` and `r*(PI/2^31) - 2*PI`
otherwise, `PI` being `GPS_PI`; it is negative exactly when `r > 2^31`, and it lies in the
half-open interval from `-PI` (excluded) to `PI` (included). -/
theorem parse0x8F20_longitude (ucData : List Nat) (nLen : Int) (r : Nat)
    (h : nLen = 56 ∨ nLen = 64) (hraw : GetULong (ucData.drop 16) = r) (hr : r < 2 ^ 32) :
    ∃ fix, Parse0x8F20 ucData nLen = some fix ∧
      fix.dblLon = (if (r : ℚ) * (GPS_PI / 2 ^ 31) ≤ GPS_PI then (r : ℚ) * (GPS_PI / 2 ^ 31)
        else (r : ℚ) * (GPS_PI / 2 ^ 31) - 2 * GPS_PI) ∧
      (fix.dblLon < 0 ↔ 2 ^ 31 < r) ∧ -GPS_PI < fix.dblLon ∧ fix.dblLon ≤ GPS_PI := by
  have hP := GPS_PI_pos
  obtain ⟨hiff, h0, h2⟩ := lon_scaled_bounds GPS_PI hP r hr
  refine ⟨_, Parse0x8F20_of_valid ucData nLen h, ?_, ?_, ?_, ?_⟩
  · rw [extract0x8F20_lon, hraw]
  all_goals rw [extract0x8F20_lon, hraw]
  · by_cases hle : (r : ℚ) * (GPS_PI / 2 ^ 31) ≤ GPS_PI
    · rw [if_pos hle]
      have hr31 : r ≤ 2 ^ 31 := hiff.mp hle
      constructor
      · intro hneg
        linarith
      · intro hgt
        omega
    · rw [if_neg hle]
      have hr31 : ¬ r ≤ 2 ^ 31 := fun hh => hle (hiff.mpr hh)
      constructor
      · intro _
        omega
      · intro _
        linarith
  · by_cases hle : (r : ℚ) * (GPS_PI / 2 ^ 31) ≤ GPS_PI
    · rw [if_pos hle]
      linarith
    · rw [if_neg hle]
      linarith
  · by_cases hle : (r : ℚ) * (GPS_PI / 2 ^ 31) ≤ GPS_PI
    · rw [if_pos hle]
      exact hle
    · rw [if_neg hle]
      linarith

theorem parse0x8F20_longitude_witness :
    (((56 : Int) = 56 ∨ (56 : Int) = 64) ∧
      GetULong (samplePayload8F20b.drop 16) = 3221225472 ∧ 3221225472 < 2 ^ 32) ∧
    ∃ fix, Parse0x8F20 samplePayload8F20b 56 = some fix ∧
      fix.dblLon = (if ((3221225472 : Nat) : ℚ) * (GPS_PI / 2 ^ 31) ≤ GPS_PI
        then ((3221225472 : Nat) : ℚ) * (GPS_PI / 2 ^ 31)
        else ((3221225472 : Nat) : ℚ) * (GPS_PI / 2 ^ 31) - 2 * GPS_PI) ∧
      (fix.dblLon < 0 ↔ 2 ^ 31 < 3221225472) ∧ -GPS_PI < fix.dblLon ∧ fix.dblLon ≤ GPS_PI :=
  ⟨⟨Or.inl rfl, by decide, by decide⟩,
    parse0x8F20_longitude samplePayload8F20b 56 3221225472 (Or.inl rfl) (by decide) (by decide)⟩

/-! ## Datum text and receiver-mode text -/

theorem extract0x8F20_cDatumIdx (d : List Nat) (m : Nat) :
    (extract0x8F20 d m).cDatumIdx = (byteAt d 26 + 255) % 256 := rfl

/-- C15, as stated, fails: with raw datum byte 1 the decremented index is 0 and the text chosen
is `WGS-84`, not `Unknown`; with raw datum byte 0 the index is 255 and the text is the
numbered datum 255, not `WGS-84`. -/
theorem parse0x8F20_datum_unknown_fails :
    byteAt samplePayload8F20b 26 = 1 ∧
    (Parse0x8F20 samplePayload8F20b 56).map (fun r => (r.cDatumIdx, strDatum r.cDatumIdx))
      = some (0, StrDatum.wgs84) ∧
    StrDatum.wgs84 ≠ StrDatum.unknown ∧
    byteAt samplePayload8F20 26 = 0 ∧
    (Parse0x8F20 samplePayload8F20 56).map (fun r => (r.cDatumIdx, strDatum r.cDatumIdx))
      = some (255, StrDatum.datum 255) := by
  refine ⟨by decide, ?_, by decide, by decide, ?_⟩
  · rw [Parse0x8F20_of_valid _ _ (Or.inl rfl)]
    simp only [Option.map, extract0x8F20_cDatumIdx]
    decide
  · rw [Parse0x8F20_of_valid _ _ (Or.inl rfl)]
    simp only [Option.map, extract0x8F20_cDatumIdx]
    decide

/-- C15, amended: for every length-valid payload the byte at offset 26 is decremented by 1;
a result of 0 (raw byte 1) is classified as the WGS-84 default, and a positive result from a
raw byte in `2 .. 0x80` as a numbered datum with that index. -/
theorem parse0x8F20_datum (ucData : List Nat) (nLen : Int) (h : nLen = 56 ∨ nLen = 64) :
    ∃ r, Parse0x8F20 ucData nLen = some r ∧
      (byteAt ucData 26 = 1 → r.cDatumIdx = 0 ∧ strDatum r.cDatumIdx = StrDatum.wgs84) ∧
      (2 ≤ byteAt ucData 26 → byteAt ucData 26 ≤ 0x80 →
        r.cDatumIdx = byteAt ucData 26 - 1 ∧
        strDatum r.cDatumIdx = StrDatum.datum (byteAt ucData 26 - 1)) := by
  refine ⟨_, Parse0x8F20_of_valid ucData nLen h, ?_, ?_⟩
  · intro h1
    rw [extract0x8F20_cDatumIdx, h1]
    exact ⟨rfl, rfl⟩
  · intro h2 h80
    have e : (byteAt ucData 26 + 255) % 256 = byteAt ucData 26 - 1 := by omega
    rw [extract0x8F20_cDatumIdx, e]
    refine ⟨rfl, ?_⟩
    have hpos : byteAt ucData 26 - 1 > 0 := by omega
    simp [strDatum, hpos]

theorem parse0x8F20_datum_witness :
    ((56 : Int) = 56 ∨ (56 : Int) = 64) ∧
    ∃ r, Parse0x8F20 samplePayload8F20b 56 = some r ∧
      (byteAt samplePayload8F20b 26 = 1 →
        r.cDatumIdx = 0 ∧ strDatum r.cDatumIdx = StrDatum.wgs84) ∧
      (2 ≤ byteAt samplePayload8F20b 26 → byteAt samplePayload8F20b 26 ≤ 0x80 →
        r.cDatumIdx = byteAt samplePayload8F20b 26 - 1 ∧
        strDatum r.cDatumIdx = StrDatum.datum (byteAt samplePayload8F20b 26 - 1)) :=
  ⟨Or.inl rfl, parse0x8F20_datum samplePayload8F20b 56 (Or.inl rfl)⟩

theorem Parse0x8FAC_mode (d : List Nat) :
    ∃ r, Parse0x8FAC d 68 = some r ∧ r.ucReceiverMode = byteAt d 1 := by
  unfold Parse0x8FAC
  rw [if_neg (by decide)]
  exact ⟨_, rfl, rfl⟩

/-- C16: for every raw mode byte `m` (offset 1) of a length-valid DisciplineStatus payload, the
text used is entry `m mod 7` of the 8-entry table `strOprtngDim`; the index is always inside
the table, and raw value 7 gets the same text as raw value 0, `Automatic (2D/3D)`. -/
theorem parse0x8FAC_receiver_mode (ucData : List Nat) :
    ∃ r, Parse0x8FAC ucData 68 = some r ∧ r.ucReceiverMode = byteAt ucData 1 ∧
      strOprtngDim.length = 8 ∧ byteAt ucData 1 % 7 < strOprtngDim.length ∧
      oprtngDim r = strOprtngDim[byteAt ucData 1 % 7]? ∧ (oprtngDim r).isSome ∧
      (byteAt ucData 1 = 7 → oprtngDim r = some "Automatic (2D/3D)") ∧
      (byteAt ucData 1 = 0 → oprtngDim r = some "Automatic (2D/3D)") := by
  have hlt : byteAt ucData 1 % 7 < 7 := Nat.mod_lt _ (by decide)
  have hlen : strOprtngDim.length = 8 := rfl
  obtain ⟨r, hr, hm⟩ := Parse0x8FAC_mode ucData
  have hd : oprtngDim r = strOprtngDim[byteAt ucData 1 % 7]? := by
    rw [oprtngDim, hm]
  refine ⟨r, hr, hm, hlen, by omega, hd, ?_, ?_, ?_⟩
  · rw [hd, List.getElem?_eq_getElem (by omega)]
    rfl
  · intro h7
    rw [hd, h7]
    rfl
  · intro h0
    rw [hd, h0]
    rfl

/-! ## Satellite table and UTC record -/

theorem svPrn_of_byte (d : List Nat) (i : Nat) :
    svPrn d i = byteAt d (32 + 2 * i) &&& 0x3F ∧ svPrn d i ≤ 63 ∧
      svPrn d i ≤ byteAt d (32 + 2 * i) := by
  have h63 : byteAt d (32 + 2 * i) &&& 0x3F ≤ 63 := Nat.and_le_right
  have hle : byteAt d (32 + 2 * i) &&& 0x3F ≤ byteAt d (32 + 2 * i) := Nat.and_le_left
  have e : svPrn d i = byteAt d (32 + 2 * i) &&& 0x3F := by
    unfold svPrn
    exact Nat.mod_eq_of_lt (by omega)
  rw [e]
  exact ⟨rfl, h63, hle⟩

theorem svIODE_of_bytes (d : List Nat) (i : Nat)
    (ha : byteAt d (32 + 2 * i) < 256) (hb : byteAt d (33 + 2 * i) < 256) :
    svIODE d i
      = ((byteAt d (33 + 2 * i)
          + 4 * (byteAt d (32 + 2 * i) - (byteAt d (32 + 2 * i) &&& 0x3F)) : Nat) : Int) := by
  obtain ⟨e, h63, hle⟩ := svPrn_of_byte d i
  unfold svIODE
  rw [e] at h63 hle
  rw [e]
  generalize byteAt d (32 + 2 * i) &&& 0x3F = prn at *
  generalize byteAt d (32 + 2 * i) = a at *
  generalize byteAt d (33 + 2 * i) = b at *
  have hv : (((b : Int) + 4 * ((a : Int) - (prn : Int))) % 65536).toNat = b + 4 * (a - prn) := by
    omega
  rw [hv, toS16_of_lt _ (by omega)]
  split_ifs <;> omega

theorem extract0x8F20_sv (d : List Nat) (m i : Nat) (hi : i < m) :
    (extract0x8F20 d m).ucSvPrn[i]? = some (svPrn d i) ∧
      (extract0x8F20 d m).ucSvIODE[i]? = some (svIODE d i) := by
  simp [extract0x8F20, List.getElem?_map, List.getElem?_range hi]

theorem extract0x8F20_sv_congr (d e : List Nat) (m : Nat)
    (h : ∀ i, 32 ≤ i → byteAt e i = byteAt d i) :
    (extract0x8F20 e m).ucSvPrn = (extract0x8F20 d m).ucSvPrn ∧
      (extract0x8F20 e m).ucSvIODE = (extract0x8F20 d m).ucSvIODE := by
  constructor
  · show (List.range m).map (svPrn e) = (List.range m).map (svPrn d)
    apply List.map_congr_left
    intro i _
    simp only [svPrn, h (32 + 2 * i) (by omega)]
  · show (List.range m).map (svIODE e) = (List.range m).map (svIODE d)
    apply List.map_congr_left
    intro i _
    simp only [svIODE, svPrn, h (32 + 2 * i) (by omega), h (33 + 2 * i) (by omega)]

/-- Every read from an array of bytes is a byte. -/
theorem byteAt_lt (d : List Nat) (h : ∀ b ∈ d, b < 256) (i : Nat) : byteAt d i < 256 := by
  unfold byteAt
  rw [List.getD_eq_getElem?_getD]
  by_cases hi : i < d.length
  · rw [List.getElem?_eq_getElem hi]
    exact h _ (List.getElem_mem _)
  · rw [List.getElem?_eq_none (by omega)]
    decide

/-- C17: for every length-valid payload `d` (bytes below 256) and every slot `i` below the slot
count (8 for length 56, 12 for length 64), `PRN_i = d[32+2i] AND 0x3F`, so `PRN_i ≤ 63`, and
`IODE_i = d[33+2i] + 4*(d[32+2i] - PRN_i)`; a payload that differs only in the reported
satellite count `d[28]` has the same table. -/
theorem parse0x8F20_satellite_table (ucData : List Nat) (nLen : Int)
    (h : nLen = 56 ∨ nLen = 64) (hb : ∀ i, byteAt ucData i < 256) :
    ∃ r, Parse0x8F20 ucData nLen = some r ∧
      r.ucMaxSVs = (if nLen = 56 then 8 else 12) ∧
      (∀ i, i < r.ucMaxSVs →
        r.ucSvPrn[i]? = some (byteAt ucData (32 + 2 * i) &&& 0x3F) ∧
        byteAt ucData (32 + 2 * i) &&& 0x3F ≤ 63 ∧
        r.ucSvIODE[i]? = some ((byteAt ucData (33 + 2 * i)
          + 4 * (byteAt ucData (32 + 2 * i) - (byteAt ucData (32 + 2 * i) &&& 0x3F)) : Nat)
            : Int)) ∧
      ∀ e : List Nat, (∀ i, i ≠ 28 → byteAt e i = byteAt ucData i) →
        ∃ r2, Parse0x8F20 e nLen = some r2 ∧ r2.ucSvPrn = r.ucSvPrn ∧
          r2.ucSvIODE = r.ucSvIODE := by
  refine ⟨_, Parse0x8F20_of_valid ucData nLen h, rfl, ?_, ?_⟩
  · intro i hi
    have hi2 : i < (if nLen = 56 then 8 else 12) := hi
    obtain ⟨hp, hq⟩ := extract0x8F20_sv ucData _ i hi2
    obtain ⟨e, h63, _⟩ := svPrn_of_byte ucData i
    rw [hp, hq, svIODE_of_bytes ucData i (hb _) (hb _), e]
    exact ⟨rfl, Nat.and_le_right, rfl⟩
  · intro e he
    exact ⟨_, Parse0x8F20_of_valid e nLen h,
      extract0x8F20_sv_congr ucData e _ (fun i hi => he i (by omega))⟩

theorem parse0x8F20_satellite_table_witness :
    (((56 : Int) = 56 ∨ (56 : Int) = 64) ∧ ∀ i, byteAt samplePayload8F20b i < 256) ∧
    ∃ r, Parse0x8F20 samplePayload8F20b 56 = some r ∧
      r.ucMaxSVs = (if (56 : Int) = 56 then 8 else 12) ∧
      (∀ i, i < r.ucMaxSVs →
        r.ucSvPrn[i]? = some (byteAt samplePayload8F20b (32 + 2 * i) &&& 0x3F) ∧
        byteAt samplePayload8F20b (32 + 2 * i) &&& 0x3F ≤ 63 ∧
        r.ucSvIODE[i]? = some ((byteAt samplePayload8F20b (33 + 2 * i)
          + 4 * (byteAt samplePayload8F20b (32 + 2 * i)
            - (byteAt samplePayload8F20b (32 + 2 * i) &&& 0x3F)) : Nat) : Int)) ∧
      ∀ e : List Nat, (∀ i, i ≠ 28 → byteAt e i = byteAt samplePayload8F20b i) →
        ∃ r2, Parse0x8F20 e 56 = some r2 ∧ r2.ucSvPrn = r.ucSvPrn ∧
          r2.ucSvIODE = r.ucSvIODE :=
  ⟨⟨Or.inl rfl, byteAt_lt _ (by decide)⟩,
    parse0x8F20_satellite_table samplePayload8F20b 56 (Or.inl rfl) (byteAt_lt _ (by decide))⟩

/-- C18: for every 17-byte payload `d` (bytes below 256) the decoded UTC record has
time-of-week the big-endian unsigned 32-bit value at `d[1..4]`, week the big-endian unsigned
16-bit value at `d[5..6]`, UTC offset the big-endian signed 16-bit value at `d[7..8]`, timing
flags `d[9]`, second, minute, hour, day, month `d[10] .. d[14]`, and year the big-endian
unsigned 16-bit value at `d[15..16]`; replacing `d[0]` changes no field. -/
theorem parse0x8FAB_fields (d : List Nat) (hlen : d.length = 17)
    (hb : ∀ i, byteAt d i < 256) :
    Parse0x8FAB d 17 = some
      { ulTimeOfWeek := 2 ^ 24 * byteAt d 1 + 2 ^ 16 * byteAt d 2 + 2 ^ 8 * byteAt d 3
          + byteAt d 4
        usWeekNumber := 256 * byteAt d 5 + byteAt d 6
        sUtcOffset := if 128 ≤ byteAt d 7
          then ((256 * byteAt d 7 + byteAt d 8 : Nat) : Int) - 2 ^ 16
          else ((256 * byteAt d 7 + byteAt d 8 : Nat) : Int)
        ucTimingFlag := byteAt d 9
        ucSecond := byteAt d 10
        ucMinute := byteAt d 11
        ucHour := byteAt d 12
        ucDay := byteAt d 13
        ucMonth := byteAt d 14
        usYear := 256 * byteAt d 15 + byteAt d 16 } ∧
    ∀ x : Nat, Parse0x8FAB (x :: d.tail) 17 = Parse0x8FAB d 17 := by
  constructor
  · have h7 := hb 7
    have h8 := hb 8
    have hoff : toS16 (256 * byteAt d 7 + byteAt d 8)
        = if 128 ≤ byteAt d 7 then ((256 * byteAt d 7 + byteAt d 8 : Nat) : Int) - 2 ^ 16
          else ((256 * byteAt d 7 + byteAt d 8 : Nat) : Int) := by
      rw [toS16_of_lt _ (by omega)]
      split_ifs <;> omega
    unfold Parse0x8FAB
    rw [if_neg (by decide)]
    simp only [GetULong_drop, GetUShort_drop, GetShort_drop, Nat.reduceAdd, hoff]
  · intro x
    cases d with
    | nil => simp at hlen
    | cons y t =>
      unfold Parse0x8FAB
      rw [if_neg (by decide), if_neg (by decide)]
      rfl

theorem parse0x8FAB_fields_witness :
    (samplePayload8FAB.length = 17 ∧ ∀ i, byteAt samplePayload8FAB i < 256) ∧
    (Parse0x8FAB samplePayload8FAB 17 = some
      { ulTimeOfWeek := 2 ^ 24 * byteAt samplePayload8FAB 1 + 2 ^ 16 * byteAt samplePayload8FAB 2
          + 2 ^ 8 * byteAt samplePayload8FAB 3 + byteAt samplePayload8FAB 4
        usWeekNumber := 256 * byteAt samplePayload8FAB 5 + byteAt samplePayload8FAB 6
        sUtcOffset := if 128 ≤ byteAt samplePayload8FAB 7
          then ((256 * byteAt samplePayload8FAB 7 + byteAt samplePayload8FAB 8 : Nat) : Int)
            - 2 ^ 16
          else ((256 * byteAt samplePayload8FAB 7 + byteAt samplePayload8FAB 8 : Nat) : Int)
        ucTimingFlag := byteAt samplePayload8FAB 9
        ucSecond := byteAt samplePayload8FAB 10
        ucMinute := byteAt samplePayload8FAB 11
        ucHour := byteAt samplePayload8FAB 12
        ucDay := byteAt samplePayload8FAB 13
        ucMonth := byteAt samplePayload8FAB 14
        usYear := 256 * byteAt samplePayload8FAB 15 + byteAt samplePayload8FAB 16 } ∧
    ∀ x : Nat, Parse0x8FAB (x :: samplePayload8FAB.tail) 17 = Parse0x8FAB samplePayload8FAB 17) :=
  ⟨⟨rfl, byteAt_lt _ (by decide)⟩,
    parse0x8FAB_fields samplePayload8FAB rfl (byteAt_lt _ (by decide))⟩

/-! ## A frame split across two calls -/

/-- A wire frame without its closing ETX, read in state `MSG_IN_COMPLETE`: nothing is handed
over, and the locals hold the opening DLE and the payload, in state `TSIP_DLE`. -/
theorem rxLoop_frame_open (ID : Nat) (data buf : List Nat)
    (h10 : ID ≠ DLE) (h03 : ID ≠ ETX) (hlen : (ID :: data).length ≤ 298) :
    rxLoop ⟨MSG_IN_COMPLETE, buf⟩ (DLE :: (stuff (ID :: data) ++ [DLE]))
      = (⟨TSIP_DLE, [DLE] ++ (ID :: data)⟩, []) := by
  simp only [List.length_cons] at hlen
  have e : stuff (ID :: data) ++ [DLE] = ID :: (stuff data ++ [DLE]) := by
    simp [stuff, h10]
  rw [e, rxLoop_cons, rxByte_seek_dle, rxLoop_cons, rxByte_dle_other _ _ h03 (by simp),
    rxLoop_append, rxLoop_partial_stuff data _ (by simp; omega), rxLoop_cons,
    rxByte_partial_dle _ (by simp; omega), rxLoop_nil]
  simp

/-- What is handed over for a prefix of the input is a prefix of what is handed over for
the input; if nothing is handed over for the input, nothing is for the prefix. -/
theorem rxLoop_initial_part_nil (s : RxLocals) (a c : List Nat) (h : (rxLoop s (a ++ c)).2 = []) :
    (rxLoop s a).2 = [] := by
  rw [rxLoop_append] at h
  exact (List.append_eq_nil.mp h).1

/-- C19: for every well-formed wire frame `w` (identifier neither `0x10` nor `0x03`, payload at
most 297 bytes) split as `w = a ++ rest` with `a` a proper prefix, `ReceivePkt` run on `a` alone
hands over no packet; the locals it ends with would have completed the packet on `rest`, but
the second call runs `rest` from the initial locals (state `MSG_IN_COMPLETE`, nothing
accumulated). -/
theorem receivePkt_split_frame (ID : Nat) (data a rest : List Nat)
    (h10 : ID ≠ 0x10) (h03 : ID ≠ 0x03) (hlen : (ID :: data).length ≤ 297)
    (hsplit : a ++ rest = [0x10] ++ stuff (ID :: data) ++ [0x10, 0x03]) (hrest : rest ≠ []) :
    ReceivePkt a = [] ∧
    (rxLoop (rxLoop rxInit a).1 rest).2 = [[0x10] ++ (ID :: data) ++ [0x10, 0x03]] ∧
    ReceivePkt rest = (rxLoop ⟨MSG_IN_COMPLETE, []⟩ rest).2 := by
  have hopen := rxLoop_frame_open ID data [] h10 h03 (by omega)
  have hw : ([0x10] ++ stuff (ID :: data) ++ [0x10, 0x03] : List Nat)
      = (DLE :: (stuff (ID :: data) ++ [DLE])) ++ [ETX] := by
    simp [DLE, ETX]
  have hr : rest = rest.dropLast ++ [rest.getLast hrest] :=
    (List.dropLast_append_getLast hrest).symm
  have hpre : a ++ rest.dropLast = DLE :: (stuff (ID :: data) ++ [DLE]) := by
    have h1 : (a ++ rest.dropLast) ++ [rest.getLast hrest]
        = (DLE :: (stuff (ID :: data) ++ [DLE])) ++ [ETX] := by
      rw [List.append_assoc, ← hr, hsplit, hw]
    exact (List.append_inj' h1 rfl).1
  have ha : ReceivePkt a = [] := by
    apply rxLoop_initial_part_nil rxInit a rest.dropLast
    rw [hpre]
    exact congrArg Prod.snd hopen
  refine ⟨ha, ?_, rfl⟩
  have hfull := receivePkt_frame_eq ID data h10 h03 hlen
  rw [← hsplit] at hfull
  unfold ReceivePkt at hfull ha
  rw [rxLoop_append, ha] at hfull
  simpa using hfull

theorem receivePkt_split_frame_witness :
    ((0x8F : Nat) ≠ 0x10 ∧ (0x8F : Nat) ≠ 0x03 ∧ ((0x8F : Nat) :: [0x10, 0x41]).length ≤ 297 ∧
      [0x10, 0x8F, 0x10] ++ [0x10, 0x41, 0x10, 0x03]
        = [0x10] ++ stuff (0x8F :: [0x10, 0x41]) ++ [0x10, 0x03] ∧
      [0x10, 0x41, 0x10, 0x03] ≠ []) ∧
    (ReceivePkt [0x10, 0x8F, 0x10] = [] ∧
    (rxLoop (rxLoop rxInit [0x10, 0x8F, 0x10]).1 [0x10, 0x41, 0x10, 0x03]).2
      = [[0x10] ++ (0x8F :: [0x10, 0x41]) ++ [0x10, 0x03]] ∧
    ReceivePkt [0x10, 0x41, 0x10, 0x03] = (rxLoop ⟨MSG_IN_COMPLETE, []⟩ [0x10, 0x41, 0x10, 0x03]).2) :=
  ⟨by decide, receivePkt_split_frame 0x8F [0x10, 0x41] [0x10, 0x8F, 0x10] [0x10, 0x41, 0x10, 0x03]
    (by decide) (by decide) (by decide) (by decide) (by decide)⟩

/-! ## The day-name index of the primary fix -/

theorem extract0x8F20_timeOfFix (d : List Nat) (m : Nat) :
    (extract0x8F20 d m).fltTimeOfFix = (GetULong (d.drop 8) : ℚ) * 0.001 := rfl

theorem byteAt_append_left (d t : List Nat) (i : Nat) (h : i < d.length) :
    byteAt (d ++ t) i = byteAt d i := by
  unfold byteAt
  rw [List.getD_eq_getElem?_getD, List.getD_eq_getElem?_getD, List.getElem?_append_left h]

/-- C20, evaluated on the packet `10 8F 20 .. 10 03` whose 56-byte data string has the
time-of-fix field `FF FF FF FF`: the packet is decoded by `Parse0x8F20`, the time of fix is
4294967.295 s, the index `(S16)(fltTimeOfFix/86400.0)` is 49, and the seven-entry table
`gstrDayName` has no entry 49. -/
theorem parse0x8F20_day_index_outside_table :
    samplePayload8F20.length = 56 ∧
    ∃ r, Parse0x8F20 samplePayload8F20 56 = some r ∧
      ParsePkt ([0x10, 0x8F] ++ samplePayload8F20 ++ [0x10, 0x03]) 60
        = some (Decoded.fix8F20 r) ∧
      r.fltTimeOfFix = 4294967.295 ∧ dayNameIndex r = 49 ∧ dayName r = none ∧
      gstrDayName.length = 7 := by
  have hraw : GetULong (samplePayload8F20.drop 8) = 4294967295 := by decide
  have ht : (extract0x8F20 samplePayload8F20 8).fltTimeOfFix = 4294967.295 := by
    rw [extract0x8F20_timeOfFix, hraw]
    norm_num
  have hi : dayNameIndex (extract0x8F20 samplePayload8F20 8) = 49 := by
    unfold dayNameIndex truncS16
    rw [ht, if_pos (by norm_num), Int.floor_eq_iff]
    constructor <;> norm_num
  have hp : Parse0x8F20 samplePayload8F20 56 = some (extract0x8F20 samplePayload8F20 8) := by
    rw [Parse0x8F20_of_valid _ _ (Or.inl rfl)]
    rfl
  have hpkt : ParsePkt ([0x10, 0x8F] ++ samplePayload8F20 ++ [0x10, 0x03]) 60
      = some (Decoded.fix8F20 (extract0x8F20 samplePayload8F20 8)) := by
    have h1 : byteAt ([0x10, 0x8F] ++ samplePayload8F20 ++ [0x10, 0x03]) 1 = 0x8F := by decide
    have h2 : ([0x10, 0x8F] ++ samplePayload8F20 ++ [0x10, 0x03] : List Nat).drop 2
        = samplePayload8F20 ++ [0x10, 0x03] := rfl
    have h3 : byteAt (samplePayload8F20 ++ [0x10, 0x03]) 0 = 0x20 := by decide
    have h4 : Parse0x8F20 (samplePayload8F20 ++ [0x10, 0x03]) 56
        = Parse0x8F20 samplePayload8F20 56 :=
      Parse0x8F20_congr _ _ _ (fun i hi => byteAt_append_left _ _ i (by
        have : samplePayload8F20.length = 56 := rfl
        omega))
    unfold ParsePkt
    rw [if_pos h1, h2]
    unfold Parse0x8F
    rw [if_pos h3]
    norm_num
    rw [h4, hp]
  refine ⟨rfl, extract0x8F20 samplePayload8F20 8, hp, hpkt, ht, hi, ?_, rfl⟩
  unfold dayName
  rw [hi]
  rfl


/-! ## The listing loops and the scalar fields of the primary fix -/

/-- A packet `10 8F d 10 03` whose data string `d` has 56 bytes and sub-identifier `0x20` is
decoded by `Parse0x8F20` with 8 slots. -/
theorem ParsePkt_fix8F20_56 (d : List Nat) (hlen : d.length = 56) (h0 : byteAt d 0 = 0x20) :
    ParsePkt ([0x10, 0x8F] ++ d ++ [0x10, 0x03]) 60
      = some (Decoded.fix8F20 (extract0x8F20 d 8)) := by
  have h1 : byteAt ([0x10, 0x8F] ++ d ++ [0x10, 0x03]) 1 = 0x8F := rfl
  have h2 : ([0x10, 0x8F] ++ d ++ [0x10, 0x03] : List Nat).drop 2 = d ++ [0x10, 0x03] := rfl
  have h3 : byteAt (d ++ [0x10, 0x03]) 0 = 0x20 := by
    rw [byteAt_append_left _ _ 0 (by omega), h0]
  have h4 : Parse0x8F20 (d ++ [0x10, 0x03]) 56 = Parse0x8F20 d 56 :=
    Parse0x8F20_congr _ _ _ (fun i hi => byteAt_append_left _ _ i (by omega))
  have h5 : Parse0x8F20 d 56 = some (extract0x8F20 d 8) := by
    rw [Parse0x8F20_of_valid _ _ (Or.inl rfl)]
    rfl
  have h6 : ((60 : Int) - 4) = 56 := by norm_num
  unfold ParsePkt
  rw [if_pos h1, h2, h6]
  unfold Parse0x8F
  rw [if_pos h3, h4, h5]
  rfl

/-- C21, evaluated on the packet `10 8F 20 .. 10 03` whose 56-byte data string reports
`0xFF` satellites at offset 28: the satellite loop decodes 8 slots, the listing loops read
the slots `0 .. 254`, and from slot 8 on they read entries that were never decoded. -/
theorem parse0x8F20_listing_reads_undecoded :
    samplePayload8F20c.length = 56 ∧
    ∃ r, Parse0x8F20 samplePayload8F20c 56 = some r ∧
      ParsePkt ([0x10, 0x8F] ++ samplePayload8F20c ++ [0x10, 0x03]) 60
        = some (Decoded.fix8F20 r) ∧
      r.ucMaxSVs = 8 ∧ r.ucSvPrn.length = 8 ∧ r.ucSvIODE.length = 8 ∧ r.ucNumSVs = 255 ∧
      listedSlots r = List.range 255 ∧ 254 ∈ listedSlots r ∧ ¬ (254 < r.ucMaxSVs) ∧
      (listedPrn r)[8]? = some none ∧ (listedIODE r)[8]? = some none := by
  have hp : Parse0x8F20 samplePayload8F20c 56 = some (extract0x8F20 samplePayload8F20c 8) := by
    rw [Parse0x8F20_of_valid _ _ (Or.inl rfl)]
    rfl
  have hn : (extract0x8F20 samplePayload8F20c 8).ucNumSVs = 255 := by decide
  have hl : listedSlots (extract0x8F20 samplePayload8F20c 8) = List.range 255 := by
    rw [listedSlots, hn]
  have hlp : (extract0x8F20 samplePayload8F20c 8).ucSvPrn.length = 8 := by
    simp [extract0x8F20]
  have hli : (extract0x8F20 samplePayload8F20c 8).ucSvIODE.length = 8 := by
    simp [extract0x8F20]
  refine ⟨rfl, _, hp, ParsePkt_fix8F20_56 _ rfl (by decide), rfl, hlp, hli, hn, hl, ?_,
    by decide, ?_, ?_⟩
  · rw [hl]
    exact List.mem_range.mpr (by decide)
  · rw [listedPrn, hl, List.getElem?_map, List.getElem?_range (by decide)]
    simp only [Option.map]
    rw [List.getElem?_eq_none (by omega)]
  · rw [listedIODE, hl, List.getElem?_map, List.getElem?_range (by decide)]
    simp only [Option.map]
    rw [List.getElem?_eq_none (by omega)]

theorem toS32_range (v : Nat) : -2147483648 ≤ toS32 v ∧ toS32 v < 2147483648 := by
  unfold toS32
  have := Nat.mod_lt v (show 4294967296 > 0 by decide)
  split_ifs <;> omega

theorem GetLong_drop_signed (d : List Nat) (k : Nat) (hb : ∀ i, byteAt d i < 256) :
    GetLong (d.drop k)
      = if 128 ≤ byteAt d k
        then ((2 ^ 24 * byteAt d k + 2 ^ 16 * byteAt d (k + 1) + 2 ^ 8 * byteAt d (k + 2)
          + byteAt d (k + 3) : Nat) : Int) - 2 ^ 32
        else ((2 ^ 24 * byteAt d k + 2 ^ 16 * byteAt d (k + 1) + 2 ^ 8 * byteAt d (k + 2)
          + byteAt d (k + 3) : Nat) : Int) := by
  have h0 := hb k
  have h1 := hb (k + 1)
  have h2 := hb (k + 2)
  have h3 := hb (k + 3)
  simp only [GetLong, byteAt_drop, Nat.add_zero]
  rw [toS32_of_lt _ (by omega)]
  split_ifs <;> omega

theorem GetShort_drop_signed (d : List Nat) (k : Nat) (hb : ∀ i, byteAt d i < 256) :
    GetShort (d.drop k)
      = if 128 ≤ byteAt d k then ((256 * byteAt d k + byteAt d (k + 1) : Nat) : Int) - 2 ^ 16
        else ((256 * byteAt d k + byteAt d (k + 1) : Nat) : Int) := by
  have h0 := hb k
  have h1 := hb (k + 1)
  rw [GetShort_drop, toS16_of_lt _ (by omega)]
  split_ifs <;> omega

/-- The latitude `l * (P / 2^31)` of a signed 32-bit `l` lies in `[-P, P)`, for positive `P`. -/
theorem lat_scaled_bounds (P : ℚ) (hP : 0 < P) (l : Int)
    (h1 : -2147483648 ≤ l) (h2 : l < 2147483648) :
    -P ≤ (l : ℚ) * (P / 2 ^ 31) ∧ (l : ℚ) * (P / 2 ^ 31) < P := by
  have hx : (l : ℚ) * (P / 2 ^ 31) = P * ((l : ℚ) / 2 ^ 31) := by ring
  have q1 : (-2147483648 : ℚ) ≤ l := by exact_mod_cast h1
  have q2 : (l : ℚ) < 2147483648 := by exact_mod_cast h2
  have t1 : (-1 : ℚ) ≤ (l : ℚ) / 2 ^ 31 := by
    rw [le_div_iff₀ (by norm_num)]
    linarith
  have t2 : (l : ℚ) / 2 ^ 31 < 1 := by
    rw [div_lt_iff₀ (by norm_num)]
    linarith
  rw [hx]
  constructor
  · have := mul_le_mul_of_nonneg_left t1 hP.le
    linarith
  · have := mul_lt_mul_of_pos_left t2 hP
    linarith

theorem extract0x8F20_lat (d : List Nat) (m : Nat) :
    (extract0x8F20 d m).dblLat = (GetLong (d.drop 12) : ℚ) * (GPS_PI / 2 ^ 31) := by
  have e1 : MAX_LONG = 2 ^ 31 := by
    unfold MAX_LONG
    norm_num
  simp only [extract0x8F20, e1]

/-- C22: for every length-valid payload `d` (bytes below 256), time-of-fix is the big-endian
unsigned 32-bit value at offset 8 times 0.001, latitude the big-endian signed 32-bit value at
offset 12 times `PI / 2^31`, which lies in `[-PI, PI)`, altitude the big-endian signed 32-bit
value at offset 20 times 0.001, info flags `d[27]`, satellite count `d[28]`, and week number
the big-endian signed 16-bit value at offset 30. -/
theorem parse0x8F20_scalar_fields (ucData : List Nat) (nLen : Int)
    (h : nLen = 56 ∨ nLen = 64) (hb : ∀ i, byteAt ucData i < 256) :
    ∃ r, Parse0x8F20 ucData nLen = some r ∧
      r.fltTimeOfFix = ((2 ^ 24 * byteAt ucData 8 + 2 ^ 16 * byteAt ucData 9
        + 2 ^ 8 * byteAt ucData 10 + byteAt ucData 11 : Nat) : ℚ) * 0.001 ∧
      r.dblLat = (((if 128 ≤ byteAt ucData 12
          then ((2 ^ 24 * byteAt ucData 12 + 2 ^ 16 * byteAt ucData 13
            + 2 ^ 8 * byteAt ucData 14 + byteAt ucData 15 : Nat) : Int) - 2 ^ 32
          else ((2 ^ 24 * byteAt ucData 12 + 2 ^ 16 * byteAt ucData 13
            + 2 ^ 8 * byteAt ucData 14 + byteAt ucData 15 : Nat) : Int)) : Int) : ℚ)
        * (GPS_PI / 2 ^ 31) ∧
      -GPS_PI ≤ r.dblLat ∧ r.dblLat < GPS_PI ∧
      r.dblAlt = (((if 128 ≤ byteAt ucData 20
          then ((2 ^ 24 * byteAt ucData 20 + 2 ^ 16 * byteAt ucData 21
            + 2 ^ 8 * byteAt ucData 22 + byteAt ucData 23 : Nat) : Int) - 2 ^ 32
          else ((2 ^ 24 * byteAt ucData 20 + 2 ^ 16 * byteAt ucData 21
            + 2 ^ 8 * byteAt ucData 22 + byteAt ucData 23 : Nat) : Int)) : Int) : ℚ) * 0.001 ∧
      r.ucInfo = byteAt ucData 27 ∧ r.ucNumSVs = byteAt ucData 28 ∧
      r.sWeekNum = (if 128 ≤ byteAt ucData 30
        then ((256 * byteAt ucData 30 + byteAt ucData 31 : Nat) : Int) - 2 ^ 16
        else ((256 * byteAt ucData 30 + byteAt ucData 31 : Nat) : Int)) := by
  obtain ⟨hlo, hhi⟩ := toS32_range (byteAt (ucData.drop 12) 3 + 256 * byteAt (ucData.drop 12) 2
    + 65536 * byteAt (ucData.drop 12) 1 + 16777216 * byteAt (ucData.drop 12) 0)
  have hlat := lat_scaled_bounds GPS_PI GPS_PI_pos (GetLong (ucData.drop 12)) hlo hhi
  refine ⟨_, Parse0x8F20_of_valid ucData nLen h, ?_, ?_, ?_, ?_, ?_, rfl, rfl, ?_⟩
  · rw [extract0x8F20_timeOfFix, GetULong_drop]
  · rw [extract0x8F20_lat, GetLong_drop_signed ucData 12 hb]
  · rw [extract0x8F20_lat]
    exact hlat.1
  · rw [extract0x8F20_lat]
    exact hlat.2
  · show (GetLong (ucData.drop 20) : ℚ) * 0.001 = _
    rw [GetLong_drop_signed ucData 20 hb]
  · show GetShort (ucData.drop 30) = _
    rw [GetShort_drop_signed ucData 30 hb]

theorem parse0x8F20_scalar_fields_witness :
    (((56 : Int) = 56 ∨ (56 : Int) = 64) ∧ ∀ i, byteAt samplePayload8F20b i < 256) ∧
    ∃ r, Parse0x8F20 samplePayload8F20b 56 = some r ∧
      r.fltTimeOfFix = ((2 ^ 24 * byteAt samplePayload8F20b 8
        + 2 ^ 16 * byteAt samplePayload8F20b 9
        + 2 ^ 8 * byteAt samplePayload8F20b 10 + byteAt samplePayload8F20b 11 : Nat) : ℚ)
          * 0.001 ∧
      r.dblLat = (((if 128 ≤ byteAt samplePayload8F20b 12
          then ((2 ^ 24 * byteAt samplePayload8F20b 12 + 2 ^ 16 * byteAt samplePayload8F20b 13
            + 2 ^ 8 * byteAt samplePayload8F20b 14 + byteAt samplePayload8F20b 15 : Nat) : Int)
              - 2 ^ 32
          else ((2 ^ 24 * byteAt samplePayload8F20b 12 + 2 ^ 16 * byteAt samplePayload8F20b 13
            + 2 ^ 8 * byteAt samplePayload8F20b 14 + byteAt samplePayload8F20b 15 : Nat)
              : Int)) : Int) : ℚ)
        * (GPS_PI / 2 ^ 31) ∧
      -GPS_PI ≤ r.dblLat ∧ r.dblLat < GPS_PI ∧
      r.dblAlt = (((if 128 ≤ byteAt samplePayload8F20b 20
          then ((2 ^ 24 * byteAt samplePayload8F20b 20 + 2 ^ 16 * byteAt samplePayload8F20b 21
            + 2 ^ 8 * byteAt samplePayload8F20b 22 + byteAt samplePayload8F20b 23 : Nat) : Int)
              - 2 ^ 32
          else ((2 ^ 24 * byteAt samplePayload8F20b 20 + 2 ^ 16 * byteAt samplePayload8F20b 21
            + 2 ^ 8 * byteAt samplePayload8F20b 22 + byteAt samplePayload8F20b 23 : Nat)
              : Int)) : Int) : ℚ) * 0.001 ∧
      r.ucInfo = byteAt samplePayload8F20b 27 ∧ r.ucNumSVs = byteAt samplePayload8F20b 28 ∧
      r.sWeekNum = (if 128 ≤ byteAt samplePayload8F20b 30
        then ((256 * byteAt samplePayload8F20b 30 + byteAt samplePayload8F20b 31 : Nat) : Int)
          - 2 ^ 16
        else ((256 * byteAt samplePayload8F20b 30 + byteAt samplePayload8F20b 31 : Nat)
          : Int)) :=
  ⟨⟨Or.inl rfl, byteAt_lt _ (by decide)⟩,
    parse0x8F20_scalar_fields samplePayload8F20b 56 (Or.inl rfl) (byteAt_lt _ (by decide))⟩

/-! ## Shape of every packet handed to `ParsePkt` -/

/-- A packet handed over in one loop iteration is the buffer, holding at least two bytes,
with `DLE ETX` appended. -/
theorem rxByte_emitted_shape (s : RxLocals) (b : Nat) (pkt : List Nat)
    (h : (rxByte s b).2 = some pkt) :
    ∃ buf : List Nat, 1 < buf.length ∧ pkt = buf ++ [DLE, ETX] := by
  unfold rxByte at h
  split_ifs at h
  exact ⟨s.ucPkt, ‹1 < s.nPktLen›, (Option.some.inj h).symm⟩

/-- Every packet handed over by the loop, from any locals, is a buffer of at least two bytes
with `DLE ETX` appended. -/
theorem rxLoop_emitted_shape (s : RxLocals) (xs : List Nat) (pkt : List Nat)
    (h : pkt ∈ (rxLoop s xs).2) :
    ∃ buf : List Nat, 1 < buf.length ∧ pkt = buf ++ [DLE, ETX] := by
  induction xs generalizing s with
  | nil => simp [rxLoop_nil] at h
  | cons b bs ih =>
    rw [rxLoop_cons] at h
    simp only [List.mem_append] at h
    rcases h with h | h
    · cases hb : (rxByte s b).2 with
      | none => rw [hb] at h; simp at h
      | some p =>
        rw [hb] at h
        simp only [Option.toList, List.mem_singleton] at h
        subst h
        exact rxByte_emitted_shape s b pkt hb
    · exact ih _ h

/-- C23: for every input byte sequence, every packet `ReceivePkt` hands to `ParsePkt` has at
least 4 bytes and ends with `0x10 0x03`; so the indexes 1 and 2 read by the dispatcher lie
inside the packet, and the length `len - 4` passed on is not negative. -/
theorem receivePkt_packet_shape (raw_data : List Nat) (pkt : List Nat)
    (h : pkt ∈ ReceivePkt raw_data) :
    4 ≤ pkt.length ∧ pkt.drop (pkt.length - 2) = [0x10, 0x03] ∧
      1 < pkt.length ∧ 2 < pkt.length ∧ (0 : Int) ≤ (pkt.length : Int) - 4 := by
  obtain ⟨buf, hbuf, rfl⟩ := rxLoop_emitted_shape rxInit raw_data pkt h
  have hl : (buf ++ [DLE, ETX]).length = buf.length + 2 := by simp
  refine ⟨by omega, ?_, by omega, by omega, by omega⟩
  have e : (buf ++ [DLE, ETX]).length - 2 = buf.length := by omega
  rw [e, List.drop_left]
  rfl

theorem receivePkt_packet_shape_witness :
    ([0x10, 0x8F, 0x10, 0x03] ∈ ReceivePkt [0x41, 0x10, 0x8F, 0x10, 0x03]) ∧
    (4 ≤ ([0x10, 0x8F, 0x10, 0x03] : List Nat).length ∧
      ([0x10, 0x8F, 0x10, 0x03] : List Nat).drop
        (([0x10, 0x8F, 0x10, 0x03] : List Nat).length - 2) = [0x10, 0x03] ∧
      1 < ([0x10, 0x8F, 0x10, 0x03] : List Nat).length ∧
      2 < ([0x10, 0x8F, 0x10, 0x03] : List Nat).length ∧
      (0 : Int) ≤ (([0x10, 0x8F, 0x10, 0x03] : List Nat).length : Int) - 4) :=
  ⟨by decide, receivePkt_packet_shape [0x41, 0x10, 0x8F, 0x10, 0x03] [0x10, 0x8F, 0x10, 0x03]
    (by decide)⟩

/-! ## Back-to-back frames -/

/-- A wire frame read in the locals left by an emission (state `TSIP_DLE`, empty buffer):
the opening DLE is stored as the first buffer byte, and exactly the framed payload is
handed over; the locals are again those left by an emission. -/
theorem rxLoop_frame_after_packet (ID : Nat) (data : List Nat)
    (hlen : (ID :: data).length ≤ 297) :
    rxLoop ⟨TSIP_DLE, []⟩ (wireFrame (ID :: data))
      = (⟨TSIP_DLE, []⟩, [framedPkt (ID :: data)]) := by
  simp only [List.length_cons] at hlen
  have e : wireFrame (ID :: data) = DLE :: (stuff (ID :: data) ++ [DLE, ETX]) := by
    simp [wireFrame]
  rw [e, rxLoop_cons, rxByte_dle_other _ _ (by decide) (by simp), rxLoop_append,
    rxLoop_partial_stuff (ID :: data) _ (by simp; omega),
    rxLoop_partial_close _ (by simp) (by simp; omega)]
  simp [framedPkt]

/-- Wire frames read one after another in the locals left by an emission. -/
theorem rxLoop_frames_after_packet (ps : List (List Nat))
    (hwf : ∀ p ∈ ps, ∃ ID data, p = ID :: data ∧ ID ≠ 0x10 ∧ ID ≠ 0x03 ∧ p.length ≤ 297) :
    rxLoop ⟨TSIP_DLE, []⟩ (ps.map wireFrame).flatten = (⟨TSIP_DLE, []⟩, ps.map framedPkt) := by
  induction ps with
  | nil => simp [rxLoop_nil]
  | cons p ps ih =>
    obtain ⟨ID, data, rfl, _, _, hlen⟩ := hwf _ (List.mem_cons_self _ _)
    have ih2 := ih (fun q hq => hwf q (List.mem_cons_of_mem _ hq))
    rw [List.map_cons, List.flatten_cons, rxLoop_append, rxLoop_frame_after_packet ID data hlen,
      ih2]
    simp

/-- C24: for every list of well-formed payloads (each with an identifier that is neither
`0x10` nor `0x03`, and at most 297 bytes), `ReceivePkt` run on the concatenation of their wire
frames hands over exactly one packet per frame, in order, the i-th being
`[0x10] ++ payload_i ++ [0x10, 0x03]`. -/
theorem receivePkt_back_to_back (ps : List (List Nat))
    (hwf : ∀ p ∈ ps, ∃ ID data, p = ID :: data ∧ ID ≠ 0x10 ∧ ID ≠ 0x03 ∧ p.length ≤ 297) :
    ReceivePkt (ps.map (fun p => [0x10] ++ stuff p ++ [0x10, 0x03])).flatten
        = ps.map (fun p => [0x10] ++ p ++ [0x10, 0x03]) ∧
      (ReceivePkt (ps.map (fun p => [0x10] ++ stuff p ++ [0x10, 0x03])).flatten).length
        = ps.length := by
  have key : ReceivePkt (ps.map wireFrame).flatten = ps.map framedPkt := by
    cases ps with
    | nil => rfl
    | cons p ps =>
      obtain ⟨ID, data, rfl, h10, h03, hlen⟩ := hwf _ (List.mem_cons_self _ _)
      have hrest := rxLoop_frames_after_packet ps
        (fun q hq => hwf q (List.mem_cons_of_mem _ hq))
      have hfirst := rxLoop_seeking_frame 0 ID data [] h10 h03
        (by simp only [List.length_cons] at hlen; omega)
      simp only [List.replicate_zero, List.nil_append] at hfirst
      unfold ReceivePkt rxInit
      rw [List.map_cons, List.flatten_cons, rxLoop_append, hfirst, hrest]
      simp
  have e1 : (fun p : List Nat => [0x10] ++ stuff p ++ [0x10, 0x03]) = wireFrame := rfl
  have e2 : (fun p : List Nat => [0x10] ++ p ++ [0x10, 0x03]) = framedPkt := rfl
  rw [e1, e2, key]
  exact ⟨rfl, List.length_map _ _⟩

theorem receivePkt_back_to_back_witness :
    (∀ p ∈ ([[0x8F, 0x10, 0x03], [0x41], [0x42, 0x10]] : List (List Nat)),
      ∃ ID data, p = ID :: data ∧ ID ≠ 0x10 ∧ ID ≠ 0x03 ∧ p.length ≤ 297) ∧
    (ReceivePkt (([[0x8F, 0x10, 0x03], [0x41], [0x42, 0x10]] : List (List Nat)).map
        (fun p => [0x10] ++ stuff p ++ [0x10, 0x03])).flatten
        = ([[0x8F, 0x10, 0x03], [0x41], [0x42, 0x10]] : List (List Nat)).map
            (fun p => [0x10] ++ p ++ [0x10, 0x03]) ∧
      (ReceivePkt (([[0x8F, 0x10, 0x03], [0x41], [0x42, 0x10]] : List (List Nat)).map
        (fun p => [0x10] ++ stuff p ++ [0x10, 0x03])).flatten).length
        = ([[0x8F, 0x10, 0x03], [0x41], [0x42, 0x10]] : List (List Nat)).length) :=
  have hwf : ∀ p ∈ ([[0x8F, 0x10, 0x03], [0x41], [0x42, 0x10]] : List (List Nat)),
      ∃ ID data, p = ID :: data ∧ ID ≠ 0x10 ∧ ID ≠ 0x03 ∧ p.length ≤ 297 := by
    intro p hp
    simp only [List.mem_cons, List.mem_singleton, List.not_mem_nil, or_false] at hp
    rcases hp with rfl | rfl | rfl
    · exact ⟨0x8F, [0x10, 0x03], rfl, by decide, by decide, by decide⟩
    · exact ⟨0x41, [], rfl, by decide, by decide, by decide⟩
    · exact ⟨0x42, [0x10], rfl, by decide, by decide, by decide⟩
  ⟨hwf, receivePkt_back_to_back [[0x8F, 0x10, 0x03], [0x41], [0x42, 0x10]] hwf⟩

/-! ## Rendered IODE, receiver-mode text and alarm digits -/

theorem iodeShown_natCast (n : Nat) : iodeShown (n : Int) = ((n % 256 : Nat) : Int) := by
  have h : n &&& 0xFF = n % 256 := Nat.and_pow_two_sub_one_eq_mod n 8
  rw [← h]
  rfl

/-- C25: for every pair of satellite-table bytes `a = d[32+2i]`, `b = d[33+2i]`, the decoded
IODE `b + 4*(a - (a AND 0x3F))` lies in `0 .. 1023`, and its low 8 bits, which is what is
printed, equal `b`; so a data string that differs in the first byte of the pair shows the
same IODE. -/
theorem svIODE_shown (ucData : List Nat) (i : Nat)
    (ha : byteAt ucData (32 + 2 * i) < 256) (hb : byteAt ucData (33 + 2 * i) < 256) :
    svIODE ucData i = ((byteAt ucData (33 + 2 * i)
      + 4 * (byteAt ucData (32 + 2 * i) - (byteAt ucData (32 + 2 * i) &&& 0x3F)) : Nat)
        : Int) ∧
    0 ≤ svIODE ucData i ∧ svIODE ucData i ≤ 1023 ∧
    iodeShown (svIODE ucData i) = (byteAt ucData (33 + 2 * i) : Int) ∧
    ∀ e : List Nat, byteAt e (32 + 2 * i) < 256 →
      byteAt e (33 + 2 * i) = byteAt ucData (33 + 2 * i) →
      iodeShown (svIODE e i) = iodeShown (svIODE ucData i) := by
  have key : ∀ d : List Nat, byteAt d (32 + 2 * i) < 256 → byteAt d (33 + 2 * i) < 256 →
      (0 ≤ svIODE d i ∧ svIODE d i ≤ 1023) ∧
        iodeShown (svIODE d i) = (byteAt d (33 + 2 * i) : Int) := by
    intro d hda hdb
    have hm : byteAt d (32 + 2 * i) &&& 0x3F = byteAt d (32 + 2 * i) % 64 :=
      Nat.and_pow_two_sub_one_eq_mod _ 6
    rw [svIODE_of_bytes d i hda hdb, iodeShown_natCast, hm]
    refine ⟨⟨by omega, by omega⟩, ?_⟩
    congr 1
    omega
  obtain ⟨⟨h0, h1⟩, hs⟩ := key ucData ha hb
  refine ⟨svIODE_of_bytes ucData i ha hb, h0, h1, hs, ?_⟩
  intro e hea heb
  rw [hs, (key e hea (by omega)).2, heb]

theorem svIODE_shown_witness :
    (byteAt samplePayload8F20b (32 + 2 * 0) < 256 ∧
      byteAt samplePayload8F20b (33 + 2 * 0) < 256) ∧
    (svIODE samplePayload8F20b 0 = ((byteAt samplePayload8F20b (33 + 2 * 0)
      + 4 * (byteAt samplePayload8F20b (32 + 2 * 0)
        - (byteAt samplePayload8F20b (32 + 2 * 0) &&& 0x3F)) : Nat) : Int) ∧
    0 ≤ svIODE samplePayload8F20b 0 ∧ svIODE samplePayload8F20b 0 ≤ 1023 ∧
    iodeShown (svIODE samplePayload8F20b 0) = (byteAt samplePayload8F20b (33 + 2 * 0) : Int) ∧
    ∀ e : List Nat, byteAt e (32 + 2 * 0) < 256 →
      byteAt e (33 + 2 * 0) = byteAt samplePayload8F20b (33 + 2 * 0) →
      iodeShown (svIODE e 0) = iodeShown (svIODE samplePayload8F20b 0)) :=
  ⟨by decide, svIODE_shown samplePayload8F20b 0 (by decide) (by decide)⟩

/-- C26: for no raw mode byte does `Parse0x8FAC` select entry 7 of `strOprtngDim`,
`Overdetermined Clock`: the index `m mod 7` is at most 6, and the text printed is never that
entry. -/
theorem parse0x8FAC_eighth_label_unreachable (ucData : List Nat) :
    ∃ r, Parse0x8FAC ucData 68 = some r ∧ r.ucReceiverMode = byteAt ucData 1 ∧
      r.ucReceiverMode % 7 ≤ 6 ∧ r.ucReceiverMode % 7 ≠ 7 ∧
      strOprtngDim[7]? = some "Overdetermined Clock" ∧
      oprtngDim r ≠ some "Overdetermined Clock" := by
  obtain ⟨r, hr, hm⟩ := Parse0x8FAC_mode ucData
  have hlt : r.ucReceiverMode % 7 < 7 := Nat.mod_lt _ (by decide)
  have hall : ∀ k, k < 7 → strOprtngDim[k]? ≠ some "Overdetermined Clock" := by decide
  exact ⟨r, hr, hm, by omega, by omega, rfl, hall _ hlt⟩

theorem alarmDigit_testBit (x k : Nat) : (x >>> k) &&& 1 = (x.testBit k).toNat := by
  rw [Nat.and_one_is_mod, Nat.shiftRight_eq_div_pow, Nat.toNat_testBit]

theorem alarmDigit_testBit_zero (x : Nat) : x &&& 1 = (x.testBit 0).toNat := by
  rw [Nat.and_one_is_mod, Nat.toNat_testBit, Nat.pow_zero, Nat.div_one]

/-- The alarm digits are determined by bits 7, 6, 5, 4, 3, 1 and 0 of the field. -/
theorem alarmDigits_congr (x y : Nat)
    (h : ∀ k, k ≠ 2 → k < 8 → x.testBit k = y.testBit k) : alarmDigits x = alarmDigits y := by
  simp only [alarmDigits, alarmDigit_testBit]
  simp only [alarmDigit_testBit_zero,
    h 7 (by decide) (by decide), h 6 (by decide) (by decide), h 5 (by decide) (by decide),
    h 4 (by decide) (by decide), h 3 (by decide) (by decide), h 1 (by decide) (by decide),
    h 0 (by decide) (by decide)]

/-- C27: two length-valid DisciplineStatus payloads whose critical-alarm fields (offset 8)
and minor-alarm fields (offset 10) agree on bits 7, 6, 5, 4, 3, 1 and 0, that is, differ at
most in bit 2 and in bits 8 to 15, have the same alarm digits; and the sixth digit always
equals the first. -/
theorem parse0x8FAC_alarm_digits (d e : List Nat)
    (hc : ∀ k, k ≠ 2 → k < 8 →
      (GetUShort (d.drop 8)).testBit k = (GetUShort (e.drop 8)).testBit k)
    (hm : ∀ k, k ≠ 2 → k < 8 →
      (GetUShort (d.drop 10)).testBit k = (GetUShort (e.drop 10)).testBit k) :
    ∃ r1 r2, Parse0x8FAC d 68 = some r1 ∧ Parse0x8FAC e 68 = some r2 ∧
      r1.usCriticalAlarms = GetUShort (d.drop 8) ∧ r1.usMinorAlarms = GetUShort (d.drop 10) ∧
      alarmDigits r1.usCriticalAlarms = alarmDigits r2.usCriticalAlarms ∧
      alarmDigits r1.usMinorAlarms = alarmDigits r2.usMinorAlarms ∧
      (alarmDigits r1.usCriticalAlarms)[5]? = (alarmDigits r1.usCriticalAlarms)[0]? ∧
      (alarmDigits r1.usMinorAlarms)[5]? = (alarmDigits r1.usMinorAlarms)[0]? := by
  have h1 : ∀ x : List Nat, ∃ r, Parse0x8FAC x 68 = some r ∧
      r.usCriticalAlarms = GetUShort (x.drop 8) ∧ r.usMinorAlarms = GetUShort (x.drop 10) := by
    intro x
    unfold Parse0x8FAC
    rw [if_neg (by decide)]
    exact ⟨_, rfl, rfl, rfl⟩
  obtain ⟨r1, p1, c1, m1⟩ := h1 d
  obtain ⟨r2, p2, c2, m2⟩ := h1 e
  refine ⟨r1, r2, p1, p2, c1, m1, ?_, ?_, rfl, rfl⟩
  · rw [c1, c2]
    exact alarmDigits_congr _ _ hc
  · rw [m1, m2]
    exact alarmDigits_congr _ _ hm

theorem parse0x8FAC_alarm_digits_witness :
    ((∀ k, k ≠ 2 → k < 8 → (GetUShort (samplePayload8FACa.drop 8)).testBit k
        = (GetUShort (samplePayload8FACb.drop 8)).testBit k) ∧
      (∀ k, k ≠ 2 → k < 8 → (GetUShort (samplePayload8FACa.drop 10)).testBit k
        = (GetUShort (samplePayload8FACb.drop 10)).testBit k)) ∧
    ∃ r1 r2, Parse0x8FAC samplePayload8FACa 68 = some r1 ∧
      Parse0x8FAC samplePayload8FACb 68 = some r2 ∧
      r1.usCriticalAlarms = GetUShort (samplePayload8FACa.drop 8) ∧
      r1.usMinorAlarms = GetUShort (samplePayload8FACa.drop 10) ∧
      alarmDigits r1.usCriticalAlarms = alarmDigits r2.usCriticalAlarms ∧
      alarmDigits r1.usMinorAlarms = alarmDigits r2.usMinorAlarms ∧
      (alarmDigits r1.usCriticalAlarms)[5]? = (alarmDigits r1.usCriticalAlarms)[0]? ∧
      (alarmDigits r1.usMinorAlarms)[5]? = (alarmDigits r1.usMinorAlarms)[0]? :=
  have hc : ∀ k, k ≠ 2 → k < 8 → (GetUShort (samplePayload8FACa.drop 8)).testBit k
      = (GetUShort (samplePayload8FACb.drop 8)).testBit k := by
    intro k h2 h8
    interval_cases k <;> first | exact absurd rfl h2 | decide
  have hm : ∀ k, k ≠ 2 → k < 8 → (GetUShort (samplePayload8FACa.drop 10)).testBit k
      = (GetUShort (samplePayload8FACb.drop 10)).testBit k := by
    intro k h2 h8
    interval_cases k <;> first | exact absurd rfl h2 | decide
  ⟨⟨hc, hm⟩, parse0x8FAC_alarm_digits samplePayload8FACa samplePayload8FACb hc hm⟩

end Tsip
